import Mathlib

set_option maxRecDepth 10000

/-!
# Verification of the lambdaworks STARK prover/verifier core

A shallow embedding, in Lean 4, of the Merkle-tree vector commitment, the FRI
commit/query phases, and the four-round STARK prover together with the
four-step verifier of the `lambda_elliptic_curves` repository, and proofs of
the specification claims about them.

Sources embedded (Rust):
* `crypto/src/merkle_tree/utils.rs` — leaf hashing, power-of-two padding,
  bottom-up node construction, index arithmetic;
* `crypto/src/merkle_tree/merkle.rs` — `MerkleTree::build`, `get_proof`,
  `build_merkle_path`, the `OutOfBounds` error;
* `provers/stark/src/fri/mod.rs` — `new_fri_layer`, `fri_commit_phase`,
  `fri_query_phase`;
* `provers/stark/src/prover.rs` — rounds 1–4 and `prove`;
* `provers/stark/src/verifier.rs` — steps 1–4 and `verify`;
* `provers/stark/src/traits.rs`, `trace.rs`,
  `provers/stark/src/examples/simple_fibonacci.rs`;
* `math/src/polynomial.rs` — list-of-coefficients polynomials.

Rust's imperative loops become structural recursions (with an explicit fuel
argument where the recursion is not structural, so that every definition
computes by kernel reduction; sufficiency of the chosen fuel is proved where
a claim needs it).  Partial operations — indexing, `unwrap`, operations that
panic on malformed input — return `Option`/`Except` values instead.

Several private modules of the crate are not part of the source snapshot
(the transcript implementation, `domain.rs`, `proof/stark.rs`, `grinding.rs`,
`constraints/evaluator.rs`, `fri/fri_functions.rs`); definitions standing in
for them are modelled from the specification and say so in their doc comment.
-/

namespace LambdaVerif

/-! ## §1 Merkle tree commitment

From `crypto/src/merkle_tree/utils.rs` and `crypto/src/merkle_tree/merkle.rs`.
The backend (trait `IsMerkleTreeBackend`) supplies the leaf hash and the
two-child hash; we carry it as an explicit record, generic in the row type `α`
and the digest type `β`. -/

/-- Merkle backend: `hash_one` hashes one row to a digest (`hash_leaves` maps
it over the rows), `hash_two` combines two child digests into the parent. -/
structure MerkleBackend (α β : Type) where
  hash_one : α → β
  hash_two : β → β → β

variable {α β : Type}

/-- `utils.rs::hash_leaves`: hash every row. -/
def hash_leaves (B : MerkleBackend α β) (values : List α) : List β :=
  values.map B.hash_one

/-- `utils.rs::is_power_of_two`: `(x != 0) && ((x & (x - 1)) == 0)`. -/
def is_power_of_two (x : Nat) : Bool :=
  x != 0 && (x &&& (x - 1)) == 0

/-- `utils.rs::complete_until_power_of_two`, fuelled rendering of the `while`
loop `while !is_power_of_two(len) { values.push(values[len - 1]) }`.
The read `values[values.len() - 1]` panics on an empty vector (this is the
content of claim C9), which the embedding surfaces as `none`; `none` is also
returned on fuel exhaustion, and `complete_until_power_of_two` below supplies
fuel proven sufficient. -/
def complete_until_power_of_two_fuel : Nat → List β → Option (List β)
  | 0, values => if is_power_of_two values.length then some values else none
  | fuel + 1, values =>
    if is_power_of_two values.length then some values
    else
      match values.getLast? with
      | none => none
      | some v => complete_until_power_of_two_fuel fuel (values ++ [v])

/-- `utils.rs::complete_until_power_of_two` (the loop reaches the next power
of two in at most `len` pushes, see `complete_until_power_of_two_fuel_enough`). -/
def complete_until_power_of_two (values : List β) : Option (List β) :=
  complete_until_power_of_two_fuel values.length values

/-- `utils.rs::sibling_index` (called `get_sibling_pos` by `merkle.rs`; the
arithmetic is the one of `utils.rs`). -/
def sibling_index (node_index : Nat) : Nat :=
  if node_index % 2 == 0 then node_index - 1 else node_index + 1

/-- `utils.rs::parent_index` (called `get_parent_pos` by `merkle.rs`). -/
def parent_index (node_index : Nat) : Nat :=
  if node_index % 2 == 0 then (node_index - 1) / 2 else node_index / 2

/-- `utils.rs::is_leaf`. -/
def is_leaf (length node_index : Nat) : Bool :=
  decide (length / 2 ≤ node_index) && decide (node_index < length)

/-- `utils.rs::left_child_index`. -/
def left_child_index (p : Nat) : Nat := 2 * p + 1

/-- `utils.rs::right_child_index`. -/
def right_child_index (p : Nat) : Nat := 2 * p + 2

/-- `utils.rs::build`: overwrite, recursively below `parent`, every inner
node with the hash of its two children.  The Rust recursion stops on
`is_leaf`; for an index at or beyond the node count the Rust function would
recurse forever (resp. panic on the write), a situation the well-formed
`2n-1` layout never produces, so the embedding simply stops there too.
Structural fuel; `build` at the root is run with fuel equal to the node
count, which the claims prove sufficient. -/
def build_nodes (B : MerkleBackend α β) (d : β) : Nat → List β → Nat → List β
  | 0, nodes, _ => nodes
  | fuel + 1, nodes, p =>
    if nodes.length / 2 ≤ p then nodes
    else
      let n1 := build_nodes B d fuel nodes (left_child_index p)
      let n2 := build_nodes B d fuel n1 (right_child_index p)
      n2.set p (B.hash_two (n2.getD (left_child_index p) d)
                           (n2.getD (right_child_index p) d))

/-- `merkle.rs::Error` (the only variant). -/
inductive MerkleError
  | OutOfBounds
deriving DecidableEq, Repr

/-- `merkle.rs::MerkleTree`: the flat `2n-1` node array, root cached at
front. -/
structure MerkleTree (β : Type) where
  root : β
  nodes : List β
deriving DecidableEq, Repr

/-- `merkle.rs::Proof`: the authentication path, leaf to root. -/
structure MerkleProof (β : Type) where
  merkle_path : List β
deriving DecidableEq, Repr

/-- `merkle.rs::MerkleTree::build`.  Hash the rows, pad the hashed leaves to
a power-of-two count, lay out `vec![hashed[0]; n-1]` followed by the leaves,
then rebuild the inner nodes bottom-up (`build::<B>(&mut nodes, leaves_len)`
delegates to the recursive `utils.rs::build` from the root).  The padding
read panics on an empty input, surfaced here as `none`. -/
def MerkleTree.build (B : MerkleBackend α β) (d : β) (unhashed_leaves : List α) :
    Option (MerkleTree β) :=
  match complete_until_power_of_two (hash_leaves B unhashed_leaves) with
  | none => none
  | some hashed_leaves =>
    let leaves_len := hashed_leaves.length
    let nodes0 := List.replicate (leaves_len - 1) (hashed_leaves.headD d) ++ hashed_leaves
    let nodes := build_nodes B d nodes0.length nodes0 0
    some { root := nodes.headD d, nodes := nodes }

/-- `merkle.rs::MerkleTree::build_merkle_path`, fuelled rendering of the
`while pos != ROOT` walk: collect the sibling of every node on the path to
the root, failing with `OutOfBounds` as soon as a sibling index is outside
the node array.  `none` only on fuel exhaustion; the parent index strictly
decreases, so fuel `pos` suffices (`build_merkle_path_fuel_enough`). -/
def build_merkle_path_fuel (nodes : List β) :
    Nat → Nat → Option (Except MerkleError (List β))
  | 0, pos => if pos = 0 then some (Except.ok []) else none
  | fuel + 1, pos =>
    if pos = 0 then some (Except.ok [])
    else
      match nodes.get? (sibling_index pos) with
      | none => some (Except.error MerkleError.OutOfBounds)
      | some node =>
        (build_merkle_path_fuel nodes fuel (parent_index pos)).map
          (fun r => r.map (fun path => node :: path))

/-- `merkle.rs::MerkleTree::build_merkle_path` with sufficient fuel. -/
def build_merkle_path (nodes : List β) (pos : Nat) : Except MerkleError (List β) :=
  (build_merkle_path_fuel nodes pos pos).getD (Except.ok [])

/-- `merkle.rs::MerkleTree::get_proof`: translate the leaf position to the
overall position (`pos + nodes_len / 2`), walk the path, turn the typed
`OutOfBounds` failure into `None`. -/
def MerkleTree.get_proof (t : MerkleTree β) (pos : Nat) : Option (MerkleProof β) :=
  let first_leaf_index := t.nodes.length / 2
  match build_merkle_path t.nodes (pos + first_leaf_index) with
  | Except.error _ => none
  | Except.ok merkle_path => some { merkle_path := merkle_path }

/-- Modelled from the spec: `merkle_tree/proof.rs` (`Proof::verify`) is not
part of the source snapshot.  Per §4.2 of the spec: recompute the leaf hash,
then fold up the path, the parity of the position (halved at each level)
deciding whether the running node is the left or the right child; compare the
result with the root.  Total and boolean-returning. -/
def proof_verify_fold (B : MerkleBackend α β) (h : β) (i : Nat) :
    List β → β
  | [] => h
  | s :: rest =>
    proof_verify_fold B (if i % 2 == 0 then B.hash_two h s else B.hash_two s h) (i / 2) rest

/-- Modelled from the spec: `Proof::verify` top level — recompute the leaf
hash, fold up the path, compare with the root. -/
def proof_verify [DecidableEq β] (B : MerkleBackend α β) (root : β) (pos : Nat)
    (value : α) (proof : MerkleProof β) : Bool :=
  proof_verify_fold B (B.hash_one value) pos proof.merkle_path == root

/-! ### Heap-index subtree relation

The flat `2n-1` array is a binary heap: children of `p` sit at `2p+1`,
`2p+2`.  `in_subtree p q` holds when ascending the parent chain from `q`
reaches `p`; it delimits exactly the region `utils.rs::build` may write. -/

def in_subtree (p q : Nat) : Bool :=
  if _h : q ≤ p then q == p else in_subtree p ((q - 1) / 2)
termination_by q
decreasing_by omega

theorem in_subtree_self (p : Nat) : in_subtree p p = true := by
  rw [in_subtree]; simp

theorem in_subtree_step {p q : Nat} (h : p < q) :
    in_subtree p q = in_subtree p ((q - 1) / 2) := by
  rw [in_subtree]; simp [Nat.not_le.mpr h]

theorem le_of_in_subtree {p q : Nat} (h : in_subtree p q = true) : p ≤ q := by
  induction q using Nat.strong_induction_on with
  | _ q ih =>
    by_cases hq : q ≤ p
    · rw [in_subtree] at h
      simp [hq] at h
      omega
    · rw [in_subtree_step (by omega)] at h
      have := ih ((q - 1) / 2) (by omega) h
      omega

theorem in_subtree_of_lt {p q : Nat} (h : q < p) : in_subtree p q = false := by
  rw [in_subtree]; simp [Nat.le_of_lt h]; omega

theorem in_subtree_left_child {p q : Nat} (h : in_subtree p q = true) :
    in_subtree p (2 * q + 1) = true := by
  have hpq := le_of_in_subtree h
  rw [in_subtree_step (by omega)]
  have : (2 * q + 1 - 1) / 2 = q := by omega
  rw [this]; exact h

theorem in_subtree_right_child {p q : Nat} (h : in_subtree p q = true) :
    in_subtree p (2 * q + 2) = true := by
  have hpq := le_of_in_subtree h
  rw [in_subtree_step (by omega)]
  have : (2 * q + 2 - 1) / 2 = q := by omega
  rw [this]; exact h

theorem in_subtree_trans {a b c : Nat} (hab : in_subtree a b = true)
    (hbc : in_subtree b c = true) : in_subtree a c = true := by
  induction c using Nat.strong_induction_on with
  | _ c ih =>
    have hb := le_of_in_subtree hab
    by_cases hc : c ≤ b
    · rw [in_subtree] at hbc
      simp [hc] at hbc
      subst hbc; exact hab
    · rw [in_subtree_step (by omega)] at hbc
      have hrec := ih ((c - 1) / 2) (by omega) hbc
      rw [in_subtree_step (by omega)]
      exact hrec

theorem in_subtree_disjoint {p : Nat} :
    ∀ q, in_subtree (2 * p + 1) q = true → in_subtree (2 * p + 2) q = true → False := by
  intro q
  induction q using Nat.strong_induction_on with
  | _ q ih =>
    intro h1 h2
    by_cases hq2 : q ≤ 2 * p + 2
    · have hle1 := le_of_in_subtree h1
      have hle2 := le_of_in_subtree h2
      have hq : q = 2 * p + 2 := by omega
      subst hq
      rw [in_subtree_step (by omega)] at h1
      have : (2 * p + 2 - 1) / 2 = p := by omega
      rw [this] at h1
      have := le_of_in_subtree h1
      omega
    · rw [in_subtree_step (by omega)] at h1
      rw [in_subtree_step (by omega)] at h2
      exact ih ((q - 1) / 2) (by omega) h1 h2

theorem in_subtree_zero (q : Nat) : in_subtree 0 q = true := by
  induction q using Nat.strong_induction_on with
  | _ q ih =>
    match q with
    | 0 => exact in_subtree_self 0
    | q + 1 =>
      rw [in_subtree_step (by omega)]
      exact ih _ (by omega)

theorem in_subtree_cases {p q : Nat} (h : in_subtree p q = true) :
    q = p ∨ in_subtree (2 * p + 1) q = true ∨ in_subtree (2 * p + 2) q = true := by
  induction q using Nat.strong_induction_on with
  | _ q ih =>
    by_cases hq : q ≤ p
    · rw [in_subtree] at h; simp [hq] at h; exact Or.inl h
    · rw [in_subtree_step (by omega)] at h
      rcases ih ((q - 1) / 2) (by omega) h with heq | hl | hr
      · -- q is a direct child of p
        rcases (by omega : q = 2 * p + 1 ∨ q = 2 * p + 2) with rfl | rfl
        · exact Or.inr (Or.inl (in_subtree_self _))
        · exact Or.inr (Or.inr (in_subtree_self _))
      · refine Or.inr (Or.inl ?_)
        have h1 := le_of_in_subtree hl
        rw [in_subtree_step (by omega)]
        exact hl
      · refine Or.inr (Or.inr ?_)
        have h1 := le_of_in_subtree hr
        rw [in_subtree_step (by omega)]
        exact hr

/-! ### Behaviour of `utils.rs::build` -/

theorem build_nodes_length (B : MerkleBackend α β) (d : β) (fuel : Nat) :
    ∀ (nodes : List β) (p : Nat), (build_nodes B d fuel nodes p).length = nodes.length := by
  induction fuel with
  | zero => intro nodes p; rfl
  | succ fuel ih =>
    intro nodes p
    rw [build_nodes]
    by_cases h : nodes.length / 2 ≤ p
    · simp [h]
    · simp only [h, if_false]
      rw [List.length_set, ih, ih]

/-- Frame: `build` at `p` writes only inner positions inside the subtree of
`p`. -/
theorem build_nodes_frame (B : MerkleBackend α β) (d : β) (fuel : Nat) :
    ∀ (nodes : List β) (p q : Nat),
      (in_subtree p q = false ∨ nodes.length / 2 ≤ q) →
      (build_nodes B d fuel nodes p).getD q d = nodes.getD q d := by
  induction fuel with
  | zero => intro nodes p q _; rfl
  | succ fuel ih =>
    intro nodes p q hq
    rw [build_nodes]
    by_cases h : nodes.length / 2 ≤ p
    · simp [h]
    · simp only [h, if_false]
      have hqp : q ≠ p := by
        rcases hq with hq | hq
        · intro heq; rw [heq, in_subtree_self] at hq; cases hq
        · omega
      have hlen1 : (build_nodes B d fuel nodes (left_child_index p)).length = nodes.length :=
        build_nodes_length B d fuel nodes _
      have hq1 : in_subtree (left_child_index p) q = false ∨ nodes.length / 2 ≤ q := by
        rcases hq with hq | hq
        · left
          by_contra hc
          have hc' : in_subtree (left_child_index p) q = true := by
            cases hx : in_subtree (left_child_index p) q
            · exact absurd hx hc
            · rfl
          have : in_subtree p q = true :=
            in_subtree_trans (by
              have := in_subtree_left_child (in_subtree_self p)
              simpa [left_child_index] using this) hc'
          rw [hq] at this; cases this
        · right; exact hq
      have hq2 : in_subtree (right_child_index p) q = false ∨ nodes.length / 2 ≤ q := by
        rcases hq with hq | hq
        · left
          by_contra hc
          have hc' : in_subtree (right_child_index p) q = true := by
            cases hx : in_subtree (right_child_index p) q
            · exact absurd hx hc
            · rfl
          have : in_subtree p q = true :=
            in_subtree_trans (by
              have := in_subtree_right_child (in_subtree_self p)
              simpa [right_child_index] using this) hc'
          rw [hq] at this; cases this
        · right; exact hq
      rw [List.getD_eq_getElem?_getD, List.getElem?_set_ne (fun h => hqp h.symm),
        ← List.getD_eq_getElem?_getD]
      rw [ih _ _ _ (by rw [hlen1]; exact hq2), ih _ _ _ hq1]

/-- Main invariant: after `build` at `p` with enough fuel, every inner node
in the subtree of `p` holds the hash of its two children. -/
theorem build_nodes_inv (B : MerkleBackend α β) (d : β) (fuel : Nat) :
    ∀ (nodes : List β) (p : Nat), nodes.length ≤ fuel + p →
      ∀ q, in_subtree p q = true → q < nodes.length / 2 →
        (build_nodes B d fuel nodes p).getD q d =
          B.hash_two ((build_nodes B d fuel nodes p).getD (2 * q + 1) d)
                     ((build_nodes B d fuel nodes p).getD (2 * q + 2) d) := by
  induction fuel with
  | zero =>
    intro nodes p hfuel q hq hlt
    have := le_of_in_subtree hq
    omega
  | succ fuel ih =>
    intro nodes p hfuel q hq hlt
    rw [build_nodes]
    by_cases h : nodes.length / 2 ≤ p
    · have := le_of_in_subtree hq; omega
    · simp only [h, if_false]
      set n1 := build_nodes B d fuel nodes (left_child_index p) with hn1
      set n2 := build_nodes B d fuel n1 (right_child_index p) with hn2
      have hlen1 : n1.length = nodes.length := build_nodes_length B d fuel nodes _
      have hlen2 : n2.length = nodes.length := by
        rw [hn2, build_nodes_length, hlen1]
      have hplen : p < nodes.length := by omega
      have hplen2 : p < n2.length := by omega
      rcases in_subtree_cases hq with rfl | hsub | hsub
      · -- q = p: the freshly written node
        rw [List.getD_eq_getElem?_getD, List.getElem?_set_self hplen2]
        simp only [Option.getD_some]
        have hc1 : 2 * q + 1 ≠ q := by omega
        have hc2 : 2 * q + 2 ≠ q := by omega
        rw [List.getD_eq_getElem?_getD (l := n2.set q _) (n := 2 * q + 1),
          List.getElem?_set_ne (fun hx => hc1 hx.symm),
          List.getD_eq_getElem?_getD (l := n2.set q _) (n := 2 * q + 2),
          List.getElem?_set_ne (fun hx => hc2 hx.symm)]
        simp [left_child_index, right_child_index]
      · -- q in the left subtree
        have hqp : q ≠ p := by
          intro heq; subst heq
          have := le_of_in_subtree hsub; omega
        have hq1 : 2 * q + 1 ≠ p := by
          have := le_of_in_subtree hsub; omega
        have hq2 : 2 * q + 2 ≠ p := by
          have := le_of_in_subtree hsub; omega
        rw [List.getD_eq_getElem?_getD, List.getElem?_set_ne (fun hx => hqp hx.symm),
          ← List.getD_eq_getElem?_getD,
          List.getD_eq_getElem?_getD (l := n2.set p _) (n := 2 * q + 1),
          List.getElem?_set_ne (fun hx => hq1 hx.symm), ← List.getD_eq_getElem?_getD,
          List.getD_eq_getElem?_getD (l := n2.set p _) (n := 2 * q + 2),
          List.getElem?_set_ne (fun hx => hq2 hx.symm), ← List.getD_eq_getElem?_getD]
        -- q and its children are untouched by the build of the right subtree
        have hfr : ∀ r, in_subtree (left_child_index p) r = true →
            n2.getD r d = n1.getD r d := by
          intro r hr
          apply build_nodes_frame
          left
          cases hx : in_subtree (right_child_index p) r
          · rfl
          · exact absurd (in_subtree_disjoint (p := p) r
              (by simpa [left_child_index] using hr)
              (by simpa [right_child_index] using hx)) (fun hfalse => hfalse)
        rw [hfr q hsub, hfr _ (by simpa [left_child_index] using
              in_subtree_left_child (p := 2 * p + 1) (by simpa [left_child_index] using hsub)),
          hfr _ (by simpa [left_child_index] using
              in_subtree_right_child (p := 2 * p + 1) (by simpa [left_child_index] using hsub))]
        exact ih nodes (left_child_index p) (by simp [left_child_index]; omega) q
          (by simpa [left_child_index] using hsub) hlt
      · -- q in the right subtree
        have hqp : q ≠ p := by
          intro heq; subst heq
          have := le_of_in_subtree hsub; omega
        have hq1 : 2 * q + 1 ≠ p := by
          have := le_of_in_subtree hsub; omega
        have hq2 : 2 * q + 2 ≠ p := by
          have := le_of_in_subtree hsub; omega
        rw [List.getD_eq_getElem?_getD, List.getElem?_set_ne (fun hx => hqp hx.symm),
          ← List.getD_eq_getElem?_getD,
          List.getD_eq_getElem?_getD (l := n2.set p _) (n := 2 * q + 1),
          List.getElem?_set_ne (fun hx => hq1 hx.symm), ← List.getD_eq_getElem?_getD,
          List.getD_eq_getElem?_getD (l := n2.set p _) (n := 2 * q + 2),
          List.getElem?_set_ne (fun hx => hq2 hx.symm), ← List.getD_eq_getElem?_getD]
        exact ih n1 (right_child_index p) (by simp [right_child_index]; omega) q
          (by simpa [right_child_index] using hsub) (by rw [hlen1]; exact hlt)

/-! ### Behaviour of `utils.rs::complete_until_power_of_two` -/

theorem is_power_of_two_iff (n : Nat) : is_power_of_two n = true ↔ ∃ k, n = 2 ^ k := by
  constructor
  · intro h
    simp only [is_power_of_two, Bool.and_eq_true, bne_iff_ne, ne_eq, beq_iff_eq] at h
    obtain ⟨hne, hand⟩ := h
    refine ⟨Nat.log2 n, ?_⟩
    by_contra hne2
    have h1 : 2 ^ Nat.log2 n ≤ n := Nat.log2_self_le hne
    have h2 : n < 2 ^ (Nat.log2 n + 1) := Nat.lt_log2_self
    have hlt : 2 ^ Nat.log2 n < n := lt_of_le_of_ne h1 (fun h => hne2 h.symm)
    have hb1 : n.testBit (Nat.log2 n) = true := by
      rw [Nat.testBit_to_div_mod]
      have : n / 2 ^ Nat.log2 n = 1 :=
        Nat.div_eq_of_lt_le (by omega) (by rw [Nat.pow_succ] at h2; omega)
      simp [this]
    have hb2 : (n - 1).testBit (Nat.log2 n) = true := by
      rw [Nat.testBit_to_div_mod]
      have : (n - 1) / 2 ^ Nat.log2 n = 1 :=
        Nat.div_eq_of_lt_le (by omega) (by rw [Nat.pow_succ] at h2; omega)
      simp [this]
    have hb : (n &&& (n - 1)).testBit (Nat.log2 n) = true := by
      rw [Nat.testBit_land, hb1, hb2]; rfl
    rw [hand] at hb
    simp at hb
  · rintro ⟨k, rfl⟩
    simp only [is_power_of_two, Bool.and_eq_true, bne_iff_ne, ne_eq, beq_iff_eq]
    refine ⟨by positivity, ?_⟩
    apply Nat.zero_of_testBit_eq_false
    intro i
    rw [Nat.testBit_land, Nat.testBit_two_pow_sub_one]
    rcases eq_or_ne i k with rfl | hik
    · simp
    · rw [Nat.testBit_two_pow_of_ne (fun h => hik h.symm)]
      rfl

/-- The padding loop, run with enough fuel on a non-empty list, pads with
copies of the last element up to the next power of two. -/
theorem complete_until_power_of_two_fuel_spec (fuel : Nat) :
    ∀ (values : List β) (hne : values ≠ []),
      2 ^ Nat.clog 2 values.length ≤ values.length + fuel →
      complete_until_power_of_two_fuel fuel values =
        some (values ++
          List.replicate (2 ^ Nat.clog 2 values.length - values.length)
            (values.getLast hne)) := by
  induction fuel with
  | zero =>
    intro values hne hfuel
    have hle : values.length ≤ 2 ^ Nat.clog 2 values.length := Nat.le_pow_clog one_lt_two _
    have heq : 2 ^ Nat.clog 2 values.length = values.length := by omega
    rw [complete_until_power_of_two_fuel]
    have hpow : is_power_of_two values.length = true :=
      (is_power_of_two_iff _).mpr ⟨Nat.clog 2 values.length, heq.symm⟩
    simp [hpow, heq]
  | succ fuel ih =>
    intro values hne hfuel
    rw [complete_until_power_of_two_fuel]
    by_cases hpow : is_power_of_two values.length = true
    · obtain ⟨k, hk⟩ := (is_power_of_two_iff _).mp hpow
      have hck : Nat.clog 2 values.length = k := by rw [hk, Nat.clog_pow 2 k one_lt_two]
      have hsub : 2 ^ Nat.clog 2 values.length - values.length = 0 := by
        rw [hck, ← hk]; omega
      simp [hpow, hsub]
    · have hne0 : values.length ≠ 0 := fun h0 => hne (List.eq_nil_of_length_eq_zero h0)
      have hlt : values.length < 2 ^ Nat.clog 2 values.length := by
        have hle : values.length ≤ 2 ^ Nat.clog 2 values.length := Nat.le_pow_clog one_lt_two _
        rcases lt_or_eq_of_le hle with h | h
        · exact h
        · exact absurd ((is_power_of_two_iff _).mpr ⟨_, h⟩) hpow
      have hlast : values.getLast? = some (values.getLast hne) :=
        List.getLast?_eq_getLast values hne
      simp only [hpow, if_false, hlast]
      set values' := values ++ [values.getLast hne] with hv'
      have hne' : values' ≠ [] := by simp [hv']
      have hlen' : values'.length = values.length + 1 := by simp [hv']
      have hclog_le : Nat.clog 2 values'.length ≤ Nat.clog 2 values.length := by
        rw [← Nat.le_pow_iff_clog_le one_lt_two]
        omega
      have hclog_ge : Nat.clog 2 values.length ≤ Nat.clog 2 values'.length :=
        Nat.clog_mono_right 2 (by omega)
      have hclog : Nat.clog 2 values'.length = Nat.clog 2 values.length := le_antisymm hclog_le hclog_ge
      have hlq : values'.getLast? = some (values.getLast hne) := by
        rw [hv']; exact List.getLast?_concat _
      have hlq2 : values'.getLast? = some (values'.getLast hne') :=
        List.getLast?_eq_getLast _ hne'
      have hlast' : values'.getLast hne' = values.getLast hne := by
        rw [hlq2] at hlq
        exact Option.some.inj hlq
      rw [ih values' hne' (by rw [hclog]; omega)]
      rw [hclog, hlast', hlen', hv']
      have hrep : 2 ^ Nat.clog 2 values.length - values.length =
          (2 ^ Nat.clog 2 values.length - (values.length + 1)) + 1 := by omega
      rw [hrep]
      simp [List.replicate_succ]

/-- Fuel `values.length` suffices for the padding loop. -/
theorem complete_until_power_of_two_spec (values : List β) (hne : values ≠ []) :
    complete_until_power_of_two values =
      some (values ++
        List.replicate (2 ^ Nat.clog 2 values.length - values.length)
          (values.getLast hne)) := by
  rw [complete_until_power_of_two]
  apply complete_until_power_of_two_fuel_spec
  have hne0 : values.length ≠ 0 := by
    intro h0
    exact hne (List.eq_nil_of_length_eq_zero h0)
  rcases Nat.lt_or_ge values.length 2 with h | h
  · have h1 : values.length = 1 := by omega
    rw [h1, Nat.clog_one_right]
    omega
  · have hp := Nat.pow_pred_clog_lt_self one_lt_two h
    rw [Nat.pred_eq_sub_one] at hp
    have h2 : 2 ^ Nat.clog 2 values.length ≤ 2 ^ (Nat.clog 2 values.length - 1) * 2 := by
      rcases Nat.eq_zero_or_pos (Nat.clog 2 values.length) with h0 | h0
      · rw [h0]; simp
      · rw [← Nat.pow_succ]
        apply Nat.pow_le_pow_right (by omega)
        omega
    omega

theorem complete_until_power_of_two_nil :
    complete_until_power_of_two ([] : List β) = none := rfl

theorem headD_eq_getD (l : List β) (d : β) : l.headD d = l.getD 0 d := by
  cases l <;> simp [List.headD]

theorem two_pow_clog_lt {len : Nat} (h : 0 < len) : 2 ^ Nat.clog 2 len < 2 * len := by
  rcases Nat.lt_or_ge len 2 with h2 | h2
  · have h1 : len = 1 := by omega
    rw [h1, Nat.clog_one_right]
    omega
  · have hp := Nat.pow_pred_clog_lt_self one_lt_two h2
    rw [Nat.pred_eq_sub_one] at hp
    have hle : 2 ^ Nat.clog 2 len ≤ 2 ^ (Nat.clog 2 len - 1) * 2 := by
      rcases Nat.eq_zero_or_pos (Nat.clog 2 len) with h0 | h0
      · rw [h0]; simp
      · rw [← Nat.pow_succ]
        apply Nat.pow_le_pow_right (by omega)
        omega
    omega

/-! ### `MerkleTree::build`: the claimed data-model invariants -/

/-- Full characterization of a built Merkle tree: the padded leaf count `n`
is the next power of two, the node array has `2n-1` entries with the root at
index 0, the original hashed rows and then copies of the last row hash occupy
the back half, and every inner node hashes its two children. -/
theorem MerkleTree.build_spec (B : MerkleBackend α β) (d : β) (rows : List α)
    (hne : rows ≠ []) :
    ∃ (t : MerkleTree β) (n : Nat),
      MerkleTree.build B d rows = some t ∧
      is_power_of_two n = true ∧
      rows.length ≤ n ∧ n < 2 * rows.length ∧
      t.nodes.length = 2 * n - 1 ∧
      t.root = t.nodes.getD 0 d ∧
      (∀ (i : Nat) (h : i < rows.length),
        t.nodes.getD (n - 1 + i) d = B.hash_one (rows.get ⟨i, h⟩)) ∧
      (∀ i, rows.length ≤ i → i < n →
        t.nodes.getD (n - 1 + i) d = B.hash_one (rows.getLast hne)) ∧
      (∀ p, p < n - 1 →
        t.nodes.getD p d =
          B.hash_two (t.nodes.getD (2 * p + 1) d) (t.nodes.getD (2 * p + 2) d)) := by
  classical
  set hashed := hash_leaves B rows with hhashed
  have hne' : hashed ≠ [] := by
    rw [hhashed, hash_leaves]
    simp [hne]
  have hlen : hashed.length = rows.length := by rw [hhashed, hash_leaves, List.length_map]
  have hlen0 : 0 < rows.length := List.length_pos.mpr hne
  set T := 2 ^ Nat.clog 2 hashed.length with hT
  have hTle : hashed.length ≤ T := Nat.le_pow_clog one_lt_two _
  have hTlt : T < 2 * rows.length := by
    rw [hT, hlen]; exact two_pow_clog_lt hlen0
  set padded := hashed ++ List.replicate (T - hashed.length) (hashed.getLast hne') with hpadded
  have hplen : padded.length = T := by
    rw [hpadded]; simp; omega
  have hcomplete : complete_until_power_of_two hashed = some padded :=
    complete_until_power_of_two_spec hashed hne'
  set nodes0 := List.replicate (T - 1) (padded.headD d) ++ padded with hnodes0
  have hn0len : nodes0.length = 2 * T - 1 := by
    rw [hnodes0]; simp [hplen]; omega
  set nodes := build_nodes B d nodes0.length nodes0 0 with hnodes
  have hnlen : nodes.length = 2 * T - 1 := by
    rw [hnodes, build_nodes_length, hn0len]
  have hbuild : MerkleTree.build B d rows = some { root := nodes.headD d, nodes := nodes } := by
    rw [MerkleTree.build, ← hhashed, hcomplete]
    simp only [Option.some.injEq]
    rw [hnodes, hnodes0, hplen]
  have hhalf : nodes0.length / 2 = T - 1 := by rw [hn0len]; omega
  have hT1 : 1 ≤ T := by omega
  -- leaves are untouched by build
  have hleaf_frame : ∀ q, T - 1 ≤ q → nodes.getD q d = nodes0.getD q d := by
    intro q hq
    rw [hnodes]
    apply build_nodes_frame
    right; omega
  have hlrep : (List.replicate (T - 1) (padded.headD d)).length = T - 1 := by simp
  have hleaf0 : ∀ i, i < T → nodes0.getD (T - 1 + i) d = padded.getD i d := by
    intro i hi
    rw [hnodes0, List.getD_eq_getElem?_getD,
      List.getElem?_append_right (by rw [hlrep]; omega), hlrep, ← List.getD_eq_getElem?_getD]
    have hidx : T - 1 + i - (T - 1) = i := by omega
    rw [hidx]
  refine ⟨{ root := nodes.headD d, nodes := nodes }, T, hbuild, ?_, ?_, ?_, ?_, ?_, ?_, ?_, ?_⟩
  · exact (is_power_of_two_iff T).mpr ⟨_, hT⟩
  · omega
  · exact hTlt
  · exact hnlen
  · exact headD_eq_getD nodes d
  · intro i hi
    rw [hleaf_frame _ (by omega), hleaf0 _ (by omega), hpadded,
      List.getD_eq_getElem?_getD, List.getElem?_append_left (by rw [hlen]; exact hi),
      hhashed, hash_leaves, List.getElem?_map, List.getElem?_eq_getElem hi]
    simp [List.get_eq_getElem]
  · intro i hge hi
    rw [hleaf_frame _ (by omega), hleaf0 _ (by omega), hpadded,
      List.getD_eq_getElem?_getD, List.getElem?_append_right (by omega),
      ← List.getD_eq_getElem?_getD]
    have hrep : (List.replicate (T - hashed.length) (hashed.getLast hne')).getD
        (i - hashed.length) d = hashed.getLast hne' := by
      rw [List.getD_eq_getElem?_getD, List.getElem?_replicate]
      have : i - hashed.length < T - hashed.length := by omega
      simp [this]
    rw [hrep]
    have h1 : hashed.getLast? = some (hashed.getLast hne') := List.getLast?_eq_getLast _ hne'
    have h2 : hashed.getLast? = some (B.hash_one (rows.getLast hne)) := by
      rw [hhashed, hash_leaves, List.getLast?_map]
      rw [List.getLast?_eq_getLast _ hne]
      rfl
    rw [h1] at h2
    exact Option.some.inj h2
  · intro p hp
    have := build_nodes_inv B d nodes0.length nodes0 0 (by omega) p (in_subtree_zero p)
      (by rw [hhalf]; exact hp)
    simpa [hnodes] using this

/-! ### `get_proof` / `build_merkle_path`: success and `OutOfBounds` -/

/-- On an odd-length node array (the `2n-1` layout), the path walk from any
in-range position succeeds: every sibling index stays in range. -/
theorem build_merkle_path_fuel_ok :
    ∀ (fuel : Nat) (pos : Nat) (nodes : List β), pos ≤ fuel → pos < nodes.length →
      nodes.length % 2 = 1 →
      ∃ path, build_merkle_path_fuel nodes fuel pos = some (Except.ok path) := by
  intro fuel
  induction fuel with
  | zero =>
    intro pos nodes hle _ _
    have : pos = 0 := by omega
    subst this
    exact ⟨[], rfl⟩
  | succ fuel ih =>
    intro pos nodes hle hlt hodd
    rw [build_merkle_path_fuel]
    by_cases h0 : pos = 0
    · subst h0; simp
    · simp only [h0, if_false]
      have hsib : sibling_index pos < nodes.length := by
        rw [sibling_index]
        by_cases hpar : pos % 2 = 0
        · simp only [hpar]; simp; omega
        · have hbeq : (pos % 2 == 0) = false := by simp [hpar]
          rw [hbeq]
          simp only [Bool.false_eq_true, if_false]
          omega
      have hpar_lt : parent_index pos < pos := by
        rw [parent_index]
        by_cases hpar : pos % 2 = 0
        · simp only [hpar]; simp; omega
        · have hbeq : (pos % 2 == 0) = false := by simp [hpar]
          rw [hbeq]
          simp only [Bool.false_eq_true, if_false]
          omega
      have hnd : nodes.get? (sibling_index pos) = some (nodes.get ⟨sibling_index pos, hsib⟩) := by
        rw [List.get?_eq_getElem?]
        rw [List.getElem?_eq_getElem hsib]
        rfl
      obtain ⟨path, hpath⟩ := ih (parent_index pos) nodes (by omega) (by omega) hodd
      refine ⟨nodes.get ⟨sibling_index pos, hsib⟩ :: path, ?_⟩
      rw [hnd]
      simp only [hpath, Option.map_some]
      rfl

/-- On an odd-length node array, the walk from an out-of-range position fails
immediately with `OutOfBounds`: the very first sibling index is already out
of range. -/
theorem build_merkle_path_fuel_err (fuel : Nat) (pos : Nat) (nodes : List β)
    (hfuel : 1 ≤ fuel) (hge : nodes.length ≤ pos) (hodd : nodes.length % 2 = 1) :
    build_merkle_path_fuel nodes fuel pos = some (Except.error MerkleError.OutOfBounds) := by
  obtain ⟨fuel', rfl⟩ : ∃ f, fuel = f + 1 := ⟨fuel - 1, by omega⟩
  rw [build_merkle_path_fuel]
  have h0 : pos ≠ 0 := by omega
  simp only [h0, if_false]
  have hsib : nodes.length ≤ sibling_index pos := by
    rw [sibling_index]
    by_cases hpar : pos % 2 = 0
    · -- even pos at or beyond an odd length means pos ≥ length + 1
      simp only [hpar]; simp; omega
    · have hbeq : (pos % 2 == 0) = false := by simp [hpar]
      rw [hbeq]
      simp only [Bool.false_eq_true, if_false]
      omega
  rw [List.get?_eq_getElem?, List.getElem?_eq_none hsib]

theorem build_merkle_path_ok {nodes : List β} {pos : Nat} (hlt : pos < nodes.length)
    (hodd : nodes.length % 2 = 1) :
    ∃ path, build_merkle_path nodes pos = Except.ok path := by
  obtain ⟨path, hpath⟩ := build_merkle_path_fuel_ok pos pos nodes le_rfl hlt hodd
  exact ⟨path, by rw [build_merkle_path, hpath]; rfl⟩

theorem build_merkle_path_err {nodes : List β} {pos : Nat} (hge : nodes.length ≤ pos)
    (hne : 1 ≤ nodes.length) (hodd : nodes.length % 2 = 1) :
    build_merkle_path nodes pos = Except.error MerkleError.OutOfBounds := by
  rw [build_merkle_path, build_merkle_path_fuel_err pos pos nodes (by omega) hge hodd]
  rfl

/-! ### Claim theorems C6, C7, C9 -/

/-- C6: for every non-empty list of rows, `MerkleTree::build` pads the hashed
leaves to a power-of-two count `n` by repeating the hash of the last row,
stores exactly `2n-1` nodes with the root at `nodes[0]` and the `n` leaves in
the back half of the array, every internal node equals the hash of its two
children, and every leaf equals the hash of its row. -/
theorem claim_C6_merkle_build_invariant (B : MerkleBackend α β) (d : β) (da : α)
    (rows : List α) (hne : rows ≠ []) :
    ∃ (t : MerkleTree β) (n : Nat),
      MerkleTree.build B d rows = some t ∧
      is_power_of_two n = true ∧
      rows.length ≤ n ∧ n < 2 * rows.length ∧
      t.nodes.length = 2 * n - 1 ∧
      t.root = t.nodes.getD 0 d ∧
      (∀ i, i < rows.length →
        t.nodes.getD (n - 1 + i) d = B.hash_one (rows.getD i da)) ∧
      (∀ i, rows.length ≤ i → i < n →
        t.nodes.getD (n - 1 + i) d = B.hash_one (rows.getLastD da)) ∧
      (∀ p, p < n - 1 →
        t.nodes.getD p d =
          B.hash_two (t.nodes.getD (2 * p + 1) d) (t.nodes.getD (2 * p + 2) d)) := by
  obtain ⟨t, n, h1, h2, h3, h4, h5, h6, h7, h8, h9⟩ := MerkleTree.build_spec B d rows hne
  refine ⟨t, n, h1, h2, h3, h4, h5, h6, ?_, ?_, h9⟩
  · intro i hi
    rw [h7 i hi]
    congr 1
    simp [List.getD_eq_getElem?_getD, List.getElem?_eq_getElem hi, List.get_eq_getElem]
  · intro i hge hlt
    rw [h8 i hge hlt]
    congr 1
    rw [List.getLastD_eq_getLast?, List.getLast?_eq_getLast rows hne]
    rfl

theorem claim_C6_merkle_build_invariant_witness :
    (([1, 2, 3] : List Nat) ≠ []) ∧
    (∃ (t : MerkleTree Nat) (n : Nat),
      MerkleTree.build ⟨fun a => a + 1, fun a b => 2 * a + 3 * b⟩ 0 [1, 2, 3] = some t ∧
      is_power_of_two n = true ∧
      (3:Nat) ≤ n ∧ n < 6 ∧
      t.nodes.length = 2 * n - 1 ∧
      t.root = t.nodes.getD 0 0 ∧
      (∀ i, i < 3 →
        t.nodes.getD (n - 1 + i) 0 = ([1, 2, 3].getD i 0) + 1) ∧
      (∀ i, 3 ≤ i → i < n →
        t.nodes.getD (n - 1 + i) 0 = ([1, 2, 3].getLastD 0) + 1) ∧
      (∀ p, p < n - 1 →
        t.nodes.getD p 0 =
          2 * (t.nodes.getD (2 * p + 1) 0) + 3 * (t.nodes.getD (2 * p + 2) 0))) :=
  ⟨by decide, claim_C6_merkle_build_invariant ⟨fun a => a + 1, fun a b => 2 * a + 3 * b⟩
    0 0 [1, 2, 3] (by decide)⟩

/-- C9: `MerkleTree::build` is defined exactly on non-empty row lists — on
the empty list the padding step reads the last element of an empty vector
and fails (surfaced here as `none`), so every guarantee about the tree is
conditioned on at least one input row. -/
theorem claim_C9_merkle_build_empty_partial (B : MerkleBackend α β) (d : β)
    (rows : List α) :
    (MerkleTree.build B d rows).isSome = true ↔ rows ≠ [] := by
  constructor
  · intro h hnil
    subst hnil
    rw [MerkleTree.build] at h
    have : complete_until_power_of_two (hash_leaves B ([] : List α)) = none := rfl
    rw [this] at h
    simp at h
  · intro hne
    obtain ⟨t, n, h1, _⟩ := MerkleTree.build_spec B d rows hne
    rw [h1]
    rfl

/-- C7: for a tree built from a non-empty row list, requesting a proof never
panics: an in-range leaf position yields a sibling path, an out-of-range one
makes the walk fail with the typed `OutOfBounds` error, surfaced to the
caller of `get_proof` as `None`. -/
theorem claim_C7_merkle_get_proof_out_of_bounds (B : MerkleBackend α β) (d : β)
    (rows : List α) (t : MerkleTree β)
    (ht : MerkleTree.build B d rows = some t) (pos : Nat) :
    (pos < t.nodes.length / 2 + 1 → ∃ pr, t.get_proof pos = some pr) ∧
    (t.nodes.length / 2 + 1 ≤ pos →
      build_merkle_path t.nodes (pos + t.nodes.length / 2) =
        Except.error MerkleError.OutOfBounds ∧
      t.get_proof pos = none) := by
  have hne : rows ≠ [] := by
    intro hnil
    subst hnil
    rw [MerkleTree.build] at ht
    have : complete_until_power_of_two (hash_leaves B ([] : List α)) = none := rfl
    rw [this] at ht
    cases ht
  obtain ⟨t', n, h1, _, h3, _, h5, _⟩ := MerkleTree.build_spec B d rows hne
  have htt : t = t' := Option.some.inj (ht.symm.trans h1)
  subst htt
  have hn1 : 1 ≤ n := by omega
  have hhalf : t.nodes.length / 2 = n - 1 := by omega
  have hodd : t.nodes.length % 2 = 1 := by omega
  constructor
  · intro hlt
    have hpos : pos + t.nodes.length / 2 < t.nodes.length := by omega
    obtain ⟨path, hpath⟩ := build_merkle_path_ok hpos hodd
    refine ⟨{ merkle_path := path }, ?_⟩
    rw [MerkleTree.get_proof, hpath]
  · intro hge
    have hpos : t.nodes.length ≤ pos + t.nodes.length / 2 := by omega
    have herr := build_merkle_path_err hpos (by omega) hodd
    refine ⟨herr, ?_⟩
    rw [MerkleTree.get_proof, herr]

theorem claim_C7_merkle_get_proof_out_of_bounds_witness :
    (MerkleTree.build ⟨fun (a : Nat) => a + 1, fun a b => 2 * a + 3 * b⟩ 0 [1, 2, 3] =
      some { root := 86, nodes := [86, 13, 20, 2, 3, 4, 4] }) ∧
    ((2 < 4 → ∃ pr, MerkleTree.get_proof { root := 86, nodes := [86, 13, 20, 2, 3, 4, 4] } 2 =
        some pr) ∧
     (4 ≤ 2 →
      build_merkle_path [86, 13, 20, 2, 3, 4, 4] (2 + 3) =
        Except.error MerkleError.OutOfBounds ∧
      MerkleTree.get_proof { root := 86, nodes := [86, 13, 20, 2, 3, 4, 4] } 2 = none)) := by
  constructor
  · decide
  · have h := claim_C7_merkle_get_proof_out_of_bounds
      ⟨fun (a : Nat) => a + 1, fun a b => 2 * a + 3 * b⟩ 0 [1, 2, 3]
      { root := 86, nodes := [86, 13, 20, 2, 3, 4, 4] } (by decide) 2
    simpa using h

/-! ## §2 Polynomials as coefficient lists

From `math/src/polynomial.rs`: a polynomial is the list of its coefficients,
low degree first; trailing zeros insignificant.  Division by a linear factor
(`ruffini_division_inplace`, whose module is not in the snapshot) is
modelled from the spec as synthetic division with the remainder dropped. -/

variable {F : Type} [Field F] [DecidableEq F]

/-- `Polynomial::evaluate` — Horner, folding from the highest coefficient. -/
def poly_eval (p : List F) (x : F) : F :=
  p.foldr (fun c acc => acc * x + c) 0

def poly_add : List F → List F → List F
  | [], q => q
  | p, [] => p
  | a :: p, b :: q => (a + b) :: poly_add p q

def poly_neg (p : List F) : List F := p.map Neg.neg

def poly_sub (p q : List F) : List F := poly_add p (poly_neg q)

/-- Multiplication by a scalar. -/
def poly_scale (c : F) (p : List F) : List F := p.map (fun a => c * a)

def poly_mul : List F → List F → List F
  | [], _ => []
  | a :: p, q => poly_add (poly_scale a q) ((0 : F) :: poly_mul p q)

/-- Modelled from the spec: `ruffini_division_inplace(&a)` divides by
`(x - a)` synthetically and drops the remainder (which the spec notes must be
zero by construction at the call sites). -/
def ruffini_division (p : List F) (a : F) : List F :=
  (p.foldr (fun c acc => (c + a * acc.1, acc.1 :: acc.2)) ((0 : F), ([] : List F))).2

/-- Even-index coefficients (`even(p)`). -/
def even_coeffs : List F → List F
  | [] => []
  | [a] => [a]
  | a :: _ :: rest => a :: even_coeffs rest

/-- Odd-index coefficients (`odd(p)`). -/
def odd_coeffs : List F → List F
  | [] => []
  | [_] => []
  | _ :: b :: rest => b :: odd_coeffs rest

/-- Modelled from the spec: `fri_functions.rs::fold_polynomial` is not in
the snapshot; per §4.3, `p_{k+1}(x) = even(p_k)(x) + ζ_k · odd(p_k)(x)`. -/
def fold_polynomial (poly : List F) (beta : F) : List F :=
  poly_add (even_coeffs poly) (poly_scale beta (odd_coeffs poly))

/-- `Polynomial::interpolate` (Lagrange, as in `math/src/polynomial.rs`):
`Σᵢ yᵢ Πⱼ≠ᵢ (x - xⱼ)/(xᵢ - xⱼ)`. -/
def interpolate (xs ys : List F) : List F :=
  (List.range ys.length).foldl
    (fun result i =>
      poly_add result
        ((List.range xs.length).foldl
          (fun y_term j =>
            if i ≠ j then
              poly_mul y_term
                (poly_scale (1 / (xs.getD i 0 - xs.getD j 0)) [-(xs.getD j 0), (1 : F)])
            else y_term)
          [ys.getD i 0]))
    []

/-! ## §3 Field/FFT externals and the Fiat–Shamir transcript

The concrete field, its primitive roots of unity, and the transcript
implementation (`transcript.rs`) are external collaborators (spec §6/§4.1);
we model them as explicit records of deterministic functions. -/

/-- Fuel-structural binary logarithm (floor), agreeing with `Nat.log2` and
reducible inside the kernel. -/
def nat_log2_fuel : Nat → Nat → Nat
  | 0, _ => 0
  | fuel + 1, n => if 2 ≤ n then nat_log2_fuel fuel (n / 2) + 1 else 0

def nat_log2 (n : Nat) : Nat := nat_log2_fuel n n

theorem nat_log2_fuel_eq (fuel : Nat) : ∀ n, n ≤ fuel →
    nat_log2_fuel fuel n = Nat.log2 n := by
  induction fuel with
  | zero =>
    intro n h
    have : n = 0 := by omega
    subst this
    rw [nat_log2_fuel, Nat.log2]
    simp
  | succ fuel ih =>
    intro n h
    rw [nat_log2_fuel, Nat.log2]
    by_cases h2 : 2 ≤ n
    · rw [if_pos h2, if_pos (by omega), ih (n / 2) (by omega)]
    · rw [if_neg h2, if_neg (by omega)]

theorem nat_log2_eq (n : Nat) : nat_log2 n = Nat.log2 n :=
  nat_log2_fuel_eq n n le_rfl

/-- External FFT data: `primitive_root k` is a `2^k`-th primitive root of
unity of `F`. -/
structure FFTParams (F : Type) where
  primitive_root : Nat → F

/-- `get_powers_of_primitive_root_coset(order, size, offset)`:
`[offset · g^i]` for `i < size`, `g` the `2^order`-th root. -/
def get_powers_of_primitive_root_coset (P : FFTParams F) (order size : Nat)
    (offset : F) : List F :=
  (List.range size).map (fun i => offset * (P.primitive_root order) ^ i)

/-- Fuel-structural `usize::next_power_of_two`: the smallest power of two
`≥ n`, with `next_power_of_two 0 = 1`, computed by doubling from 1 as many
times as needed (`n` doublings always suffice). -/
def next_pow2_loop : Nat → Nat → Nat → Nat
  | 0, power, _ => power
  | fuel + 1, power, n => if power < n then next_pow2_loop fuel (power * 2) n else power

def next_power_of_two (n : Nat) : Nat := next_pow2_loop n 1 n

theorem next_pow2_loop_pos (fuel : Nat) : ∀ power n, 1 ≤ power →
    1 ≤ next_pow2_loop fuel power n := by
  induction fuel with
  | zero => intro power n h; exact h
  | succ fuel ih =>
    intro power n h
    rw [next_pow2_loop]
    by_cases hlt : power < n
    · rw [if_pos hlt]; exact ih (power * 2) n (by omega)
    · rw [if_neg hlt]; exact h

theorem next_power_of_two_pos (n : Nat) : 1 ≤ next_power_of_two n :=
  next_pow2_loop_pos n 1 n le_rfl

/-- `fft/src/polynomial.rs::evaluate_offset_fft` (lines 88–99 via
`evaluate_fft`, lines 40–47): the polynomial is scaled by the offset,
zero-padded to `N = next_power_of_two (max coeff_len domain_size) * blowup`,
and the FFT returns its `N` evaluations `p(offset·w^i)` in natural order,
`w` the `N`-th root of unity (per the function's own doc comment and the
prover's unit tests). -/
def evaluate_offset_fft (P : FFTParams F) (p : List F) (blowup domain_size : Nat)
    (offset : F) : List F :=
  let n := next_power_of_two (max p.length domain_size) * blowup
  (List.range n).map (fun i => poly_eval p (offset * (P.primitive_root (nat_log2 n)) ^ i))

/-- Modelled from the spec: `interpolate_fft` returns the polynomial of
degree `< n` whose evaluations over the order-`n` roots of unity are the
given values; realized by Lagrange interpolation over those points. -/
def interpolate_fft (P : FFTParams F) (values : List F) : List F :=
  interpolate (get_powers_of_primitive_root_coset P (nat_log2 values.length)
    values.length 1) values

/-- Modelled from the spec: `interpolate_offset_fft` — Lagrange
interpolation over the coset `offset·⟨h⟩`. -/
def interpolate_offset_fft (P : FFTParams F) (values : List F) (offset : F) : List F :=
  interpolate (get_powers_of_primitive_root_coset P (nat_log2 values.length)
    values.length offset) values

/-- Modelled from the spec (§4.1): the transcript is a deterministic state
machine; `append_*` extend the state, `sample_*` derive a value from the
state and also extend it, `state` exposes the running state bytes (used by
grinding), and `sample_z_ood` resamples until the candidate avoids the two
excluded sets.  Both the prover and the verifier run against the same record
`T`, so equal call sequences yield equal challenges. -/
structure StarkTranscript (F σ : Type) where
  append_bytes : σ → List Nat → σ
  append_field_element : σ → F → σ
  sample_field_element : σ → F × σ
  sample_u64 : σ → Nat → Nat × σ
  state : σ → List Nat
  sample_z_ood : σ → List F → List F → F × σ

/-! ## §4 FRI (`provers/stark/src/fri/mod.rs`)

Layer digests are `Nat`; the Merkle backend for single-field-element leaves
(`FriMerkleTree`) is carried as a record `MB`. -/

/-- Modelled from the spec (`fri_commitment.rs` is not in the snapshot):
one folding round's evaluation vector, its Merkle tree, the coset offset
used, and the domain size. -/
structure FriLayer (F : Type) where
  evaluation : List F
  merkle_tree : MerkleTree Nat
  coset_offset : F
  domain_size : Nat
deriving DecidableEq

/-- `fri/mod.rs::new_fri_layer`: evaluate the polynomial over the layer's
coset by offset-FFT (with blowup 1, so the vector has
`next_power_of_two (max coeff_len domain_size) ≥ 1` entries and is never
empty) and Merkle-commit the evaluation vector. -/
def new_fri_layer (P : FFTParams F) (MB : MerkleBackend F Nat) (poly : List F)
    (coset_offset : F) (domain_size : Nat) : Option (FriLayer F) :=
  let evaluation := evaluate_offset_fft P poly 1 domain_size coset_offset
  match MerkleTree.build MB 0 evaluation with
  | none => none
  | some mt => some ⟨evaluation, mt, coset_offset, domain_size⟩

/-- The loop `for _ in 1..number_layers` of `fri_commit_phase`, one
iteration per remaining round: sample `ζ`, square the offset, halve the
domain, fold, build and commit the next layer, append its root. -/
def fri_commit_rounds {σ : Type} (P : FFTParams F) (MB : MerkleBackend F Nat)
    (T : StarkTranscript F σ) :
    Nat → List F → F → Nat → σ → List (FriLayer F) →
    Option ((List F × F × Nat × List (FriLayer F)) × σ)
  | 0, poly, off, dsize, s, acc => some ((poly, off, dsize, acc), s)
  | k + 1, poly, off, dsize, s, acc =>
    let zs := T.sample_field_element s
    let off' := off * off
    let dsize' := dsize / 2
    let poly' := fold_polynomial poly zs.1
    match new_fri_layer P MB poly' off' dsize' with
    | none => none
    | some layer =>
      fri_commit_rounds P MB T k poly' off' dsize'
        (T.append_bytes zs.2 [layer.merkle_tree.root]) (acc ++ [layer])

/-- `fri/mod.rs::fri_commit_phase` (lines 39–91): commit the first layer,
append its root, run `number_layers - 1` folding rounds, sample the final
`ζ`, fold one last time, read off the constant coefficient
(`.get(0).unwrap_or(zero)`) and append it in the clear. -/
def fri_commit_phase {σ : Type} (P : FFTParams F) (MB : MerkleBackend F Nat)
    (T : StarkTranscript F σ) (number_layers : Nat) (p_0 : List F) (s : σ)
    (coset_offset : F) (domain_size : Nat) :
    Option ((F × List (FriLayer F)) × σ) :=
  match new_fri_layer P MB p_0 coset_offset domain_size with
  | none => none
  | some layer0 =>
    let s1 := T.append_bytes s [layer0.merkle_tree.root]
    match fri_commit_rounds P MB T (number_layers - 1) p_0 coset_offset domain_size
        s1 [layer0] with
    | none => none
    | some ((last_poly, _off, _d, layers), s2) =>
      let zs := T.sample_field_element s2
      let last_poly' := fold_polynomial last_poly zs.1
      let last_value := last_poly'.headD 0
      some ((last_value, layers), T.append_field_element zs.2 last_value)

/-- `fri_decommit.rs` (modelled from the spec): per-query openings at the
index and its symmetric counterpart, for every layer. -/
structure FriDecommitment (F : Type) where
  layers_auth_paths_sym : List (MerkleProof Nat)
  layers_evaluations_sym : List F
  layers_evaluations : List F
  layers_auth_paths : List (MerkleProof Nat)
deriving DecidableEq

/-- `fri/mod.rs::fri_query_phase` (lines 93–135): for each `ι` and every
layer, extract evaluation and authentication path at
`index = ι % domain_size` and `index_sym = (ι + domain_size/2) % domain_size`
(the `unwrap`s on `get_proof_by_pos`, and the vector indexing, are surfaced
as `Option`); empty layer list yields the empty query list. -/
def fri_query_phase (fri_layers : List (FriLayer F)) (iotas : List Nat) :
    Option (List (FriDecommitment F)) :=
  if fri_layers.isEmpty then some []
  else
    iotas.mapM (fun iota_s =>
      (fri_layers.mapM (fun (layer : FriLayer F) =>
        let index := iota_s % layer.domain_size
        let index_sym := (iota_s + layer.domain_size / 2) % layer.domain_size
        match layer.evaluation.get? index_sym, layer.merkle_tree.get_proof index_sym,
              layer.evaluation.get? index, layer.merkle_tree.get_proof index with
        | some e_sym, some p_sym, some e, some p => some (p_sym, e_sym, e, p)
        | _, _, _, _ => none)).map
        (fun (quad : List (MerkleProof Nat × F × F × MerkleProof Nat)) =>
          { layers_auth_paths_sym :=
              quad.map (fun (q : MerkleProof Nat × F × F × MerkleProof Nat) => q.1)
            layers_evaluations_sym :=
              quad.map (fun (q : MerkleProof Nat × F × F × MerkleProof Nat) => q.2.1)
            layers_evaluations :=
              quad.map (fun (q : MerkleProof Nat × F × F × MerkleProof Nat) => q.2.2.1)
            layers_auth_paths :=
              quad.map (fun (q : MerkleProof Nat × F × F × MerkleProof Nat) => q.2.2.2) }))

/-! ### Behaviour of the FRI commit phase (claim C4) -/

theorem length_evaluate_offset_fft (P : FFTParams F) (p : List F) (b ds : Nat) (off : F) :
    (evaluate_offset_fft P p b ds off).length
      = next_power_of_two (max p.length ds) * b := by
  simp [evaluate_offset_fft]

/-- `new_fri_layer` always succeeds (the evaluation vector is never empty),
and its fields are the evaluation vector, its Merkle tree, the offset and
the size. -/
theorem new_fri_layer_spec (P : FFTParams F) (MB : MerkleBackend F Nat)
    (poly : List F) (off : F) (ds : Nat) :
    ∃ l, new_fri_layer P MB poly off ds = some l ∧
      l.evaluation = evaluate_offset_fft P poly 1 ds off ∧
      l.coset_offset = off ∧ l.domain_size = ds ∧
      MerkleTree.build MB 0 l.evaluation = some l.merkle_tree := by
  have hne : evaluate_offset_fft P poly 1 ds off ≠ [] := by
    intro h
    have hlen := length_evaluate_offset_fft P poly 1 ds off
    rw [h] at hlen
    have hpos := next_power_of_two_pos (max poly.length ds)
    simp at hlen
    omega
  obtain ⟨t, n, hbuild, _⟩ := MerkleTree.build_spec MB 0 _ hne
  refine ⟨⟨_, t, off, ds⟩, ?_, rfl, rfl, rfl, hbuild⟩
  rw [new_fri_layer]
  simp only [hbuild]
  rfl

/-- The state of the FRI commit loop after `k` folding rounds: the current
polynomial (`p_k`), coset offset, domain size, and transcript state.  The
step from `k` to `k+1` is: sample `ζ_k` (the transcript state at that moment
already contains layer `k`'s root), fold, square the offset, halve the
domain, build and commit layer `k+1`, append its root. -/
def fri_chain {σ : Type} (P : FFTParams F) (MB : MerkleBackend F Nat)
    (T : StarkTranscript F σ) (p_0 : List F) (off : F) (d : Nat) (s : σ) :
    Nat → List F × F × Nat × σ
  | 0 =>
    (p_0, off, d,
      T.append_bytes s
        [((new_fri_layer P MB p_0 off d).map (fun l => l.merkle_tree.root)).getD 0])
  | k + 1 =>
    let c := fri_chain P MB T p_0 off d s k
    let zs := T.sample_field_element c.2.2.2
    let poly' := fold_polynomial c.1 zs.1
    let off' := c.2.1 * c.2.1
    let d' := c.2.2.1 / 2
    (poly', off', d',
      T.append_bytes zs.2
        [((new_fri_layer P MB poly' off' d').map (fun l => l.merkle_tree.root)).getD 0])

/-- The layer committed at chain position `k`. -/
def fri_chain_layer {σ : Type} (P : FFTParams F) (MB : MerkleBackend F Nat)
    (T : StarkTranscript F σ) (p_0 : List F) (off : F) (d : Nat) (s : σ)
    (k : Nat) : Option (FriLayer F) :=
  let c := fri_chain P MB T p_0 off d s k
  new_fri_layer P MB c.1 c.2.1 c.2.2.1

theorem fri_chain_offset {σ : Type} (P : FFTParams F) (MB : MerkleBackend F Nat)
    (T : StarkTranscript F σ) (p_0 : List F) (off : F) (d : Nat) (s : σ) :
    ∀ k, (fri_chain P MB T p_0 off d s k).2.1 = off ^ 2 ^ k := by
  intro k
  induction k with
  | zero => simp [fri_chain]
  | succ k ih =>
    rw [fri_chain]
    simp only [ih]
    rw [← pow_add, pow_succ]
    ring_nf

theorem fri_chain_dsize {σ : Type} (P : FFTParams F) (MB : MerkleBackend F Nat)
    (T : StarkTranscript F σ) (p_0 : List F) (off : F) (d : Nat) (s : σ) :
    ∀ k, (fri_chain P MB T p_0 off d s k).2.2.1 = d / 2 ^ k := by
  intro k
  induction k with
  | zero => simp [fri_chain]
  | succ k ih =>
    rw [fri_chain]
    simp only [ih]
    rw [Nat.div_div_eq_div_mul, pow_succ]

/-- Loop invariant: starting the remaining `k` rounds of the commit loop from
the chain state at position `j` lands on the chain state at position `j + k`
and emits exactly the chain layers `j+1 … j+k`. -/
theorem fri_commit_rounds_chain {σ : Type} (P : FFTParams F) (MB : MerkleBackend F Nat)
    (T : StarkTranscript F σ) (p_0 : List F) (off : F) (d : Nat) (s : σ) :
    ∀ (k j : Nat) (acc : List (FriLayer F)),
      ∃ ls,
        fri_commit_rounds P MB T k
          (fri_chain P MB T p_0 off d s j).1
          (fri_chain P MB T p_0 off d s j).2.1
          (fri_chain P MB T p_0 off d s j).2.2.1
          (fri_chain P MB T p_0 off d s j).2.2.2 acc =
        some (((fri_chain P MB T p_0 off d s (j + k)).1,
               (fri_chain P MB T p_0 off d s (j + k)).2.1,
               (fri_chain P MB T p_0 off d s (j + k)).2.2.1,
               acc ++ ls),
              (fri_chain P MB T p_0 off d s (j + k)).2.2.2) ∧
        ls.length = k ∧
        ∀ i, i < k → ls.get? i = fri_chain_layer P MB T p_0 off d s (j + 1 + i) := by
  intro k
  induction k with
  | zero =>
    intro j acc
    exact ⟨[], by simp [fri_commit_rounds], rfl, by omega⟩
  | succ k ih =>
    intro j acc
    rw [fri_commit_rounds]
    -- the freshly built layer at position j+1 exists
    have hlayer : ∃ l, fri_chain_layer P MB T p_0 off d s (j + 1) = some l := by
      rw [fri_chain_layer]
      obtain ⟨l, hl, _⟩ := new_fri_layer_spec P MB
        (fri_chain P MB T p_0 off d s (j + 1)).1
        (fri_chain P MB T p_0 off d s (j + 1)).2.1
        (fri_chain P MB T p_0 off d s (j + 1)).2.2.1
      exact ⟨l, hl⟩
    obtain ⟨layer, hlayer⟩ := hlayer
    -- the loop body computes exactly the chain step j → j+1
    have hstep : fri_chain P MB T p_0 off d s (j + 1) =
        (fold_polynomial (fri_chain P MB T p_0 off d s j).1
           (T.sample_field_element (fri_chain P MB T p_0 off d s j).2.2.2).1,
         (fri_chain P MB T p_0 off d s j).2.1 * (fri_chain P MB T p_0 off d s j).2.1,
         (fri_chain P MB T p_0 off d s j).2.2.1 / 2,
         T.append_bytes (T.sample_field_element (fri_chain P MB T p_0 off d s j).2.2.2).2
           [((new_fri_layer P MB
               (fold_polynomial (fri_chain P MB T p_0 off d s j).1
                 (T.sample_field_element (fri_chain P MB T p_0 off d s j).2.2.2).1)
               ((fri_chain P MB T p_0 off d s j).2.1 * (fri_chain P MB T p_0 off d s j).2.1)
               ((fri_chain P MB T p_0 off d s j).2.2.1 / 2)).map
             (fun l => l.merkle_tree.root)).getD 0]) := by
      conv_lhs => rw [fri_chain]
    have hnl : new_fri_layer P MB
        (fold_polynomial (fri_chain P MB T p_0 off d s j).1
          (T.sample_field_element (fri_chain P MB T p_0 off d s j).2.2.2).1)
        ((fri_chain P MB T p_0 off d s j).2.1 * (fri_chain P MB T p_0 off d s j).2.1)
        ((fri_chain P MB T p_0 off d s j).2.2.1 / 2) = some layer := by
      rw [fri_chain_layer, hstep] at hlayer
      exact hlayer
    simp only [hnl]
    have hj1 : j + 1 + k = j + (k + 1) := by omega
    obtain ⟨ls, hls, hlen, hget⟩ := ih (j + 1) (acc ++ [layer])
    refine ⟨layer :: ls, ?_, by simpa using hlen, ?_⟩
    · rw [hj1] at hls
      rw [hstep] at hls
      simp only [hnl, Option.map_some, Option.getD_some] at hls
      simpa [List.append_assoc] using hls
    · intro i hi
      match i with
      | 0 =>
        simp only [List.get?_cons_zero]
        rw [hlayer]
      | i + 1 =>
        simp only [List.get?_cons_succ]
        have := hget i (by omega)
        rw [this]
        congr 1
        omega

/-- **C4**: for every polynomial, offset, power-of-two domain size `d` and
number of layers `L ≥ 1`, the commit phase produces exactly `L` layers;
layer `k` has domain size `d / 2^k`, coset offset `offset^(2^k)`, and
evaluations equal to the offset-FFT evaluation of the `k`-times folded
polynomial (`p_{k+1} = even(p_k) + ζ_k·odd(p_k)` with `ζ_k` sampled from the
transcript); each layer root is appended to the transcript before the next
`ζ` is sampled (visible in the `fri_chain` state recursion), and the returned
`fri_last_value` is the constant coefficient of the final fold, appended to
the transcript with no commitment.  (The evaluation vector of a layer is
never empty — `evaluate_offset_fft` returns
`next_power_of_two (max coeff_len domain_size)` points — so every Merkle
commit succeeds, for every `L ≥ 1`.) -/
theorem claim_C4_fri_commit_phase_layers {σ : Type} (P : FFTParams F)
    (MB : MerkleBackend F Nat) (T : StarkTranscript F σ) (p_0 : List F) (s : σ)
    (off : F) (d L : Nat) (hL : 1 ≤ L) (m : Nat) (hdpow : d = 2 ^ m) :
    ∃ lv layers σ',
      fri_commit_phase P MB T L p_0 s off d = some ((lv, layers), σ') ∧
      layers.length = L ∧
      (∀ k, k < L →
        (fri_chain P MB T p_0 off d s k).2.1 = off ^ 2 ^ k ∧
        (fri_chain P MB T p_0 off d s k).2.2.1 = d / 2 ^ k ∧
        ∃ l, layers.get? k = some l ∧
          l.evaluation =
            evaluate_offset_fft P (fri_chain P MB T p_0 off d s k).1 1
              (d / 2 ^ k) (off ^ 2 ^ k) ∧
          l.coset_offset = off ^ 2 ^ k ∧
          l.domain_size = d / 2 ^ k ∧
          MerkleTree.build MB 0 l.evaluation = some l.merkle_tree) ∧
      (fri_chain P MB T p_0 off d s 0).1 = p_0 ∧
      (∀ k, (fri_chain P MB T p_0 off d s (k + 1)).1 =
        fold_polynomial (fri_chain P MB T p_0 off d s k).1
          (T.sample_field_element (fri_chain P MB T p_0 off d s k).2.2.2).1) ∧
      (fri_chain P MB T p_0 off d s 0).2.2.2 =
        T.append_bytes s
          [((fri_chain_layer P MB T p_0 off d s 0).map
            (fun l => l.merkle_tree.root)).getD 0] ∧
      (∀ k, (fri_chain P MB T p_0 off d s (k + 1)).2.2.2 =
        T.append_bytes
          (T.sample_field_element (fri_chain P MB T p_0 off d s k).2.2.2).2
          [((fri_chain_layer P MB T p_0 off d s (k + 1)).map
            (fun l => l.merkle_tree.root)).getD 0]) ∧
      lv = (fold_polynomial (fri_chain P MB T p_0 off d s (L - 1)).1
        (T.sample_field_element (fri_chain P MB T p_0 off d s (L - 1)).2.2.2).1).headD 0 ∧
      σ' = T.append_field_element
        (T.sample_field_element (fri_chain P MB T p_0 off d s (L - 1)).2.2.2).2 lv := by
  obtain ⟨l0, hl0, hl0e, hl0o, hl0d, hl0t⟩ := new_fri_layer_spec P MB p_0 off d
  obtain ⟨ls, hls, hlslen, hlsget⟩ :=
    fri_commit_rounds_chain P MB T p_0 off d s (L - 1) 0 [l0]
  have hchain0 : fri_chain P MB T p_0 off d s 0 =
      (p_0, off, d, T.append_bytes s
        [((new_fri_layer P MB p_0 off d).map (fun l => l.merkle_tree.root)).getD 0]) := by
    rw [fri_chain]
  have hs1 : (fri_chain P MB T p_0 off d s 0).2.2.2 =
      T.append_bytes s [l0.merkle_tree.root] := by
    rw [hchain0, hl0]
    rfl
  have hcommit : fri_commit_phase P MB T L p_0 s off d =
      some (((fold_polynomial (fri_chain P MB T p_0 off d s (L - 1)).1
        (T.sample_field_element (fri_chain P MB T p_0 off d s (L - 1)).2.2.2).1).headD 0,
        [l0] ++ ls),
        T.append_field_element
          (T.sample_field_element (fri_chain P MB T p_0 off d s (L - 1)).2.2.2).2
          ((fold_polynomial (fri_chain P MB T p_0 off d s (L - 1)).1
            (T.sample_field_element (fri_chain P MB T p_0 off d s (L - 1)).2.2.2).1).headD 0)) := by
    rw [fri_commit_phase]
    simp only [hl0]
    have harg : fri_commit_rounds P MB T (L - 1) p_0 off d
        (T.append_bytes s [l0.merkle_tree.root]) [l0] =
        fri_commit_rounds P MB T (L - 1)
          (fri_chain P MB T p_0 off d s 0).1
          (fri_chain P MB T p_0 off d s 0).2.1
          (fri_chain P MB T p_0 off d s 0).2.2.1
          (fri_chain P MB T p_0 off d s 0).2.2.2 [l0] := by
      rw [hchain0, hl0]
      rfl
    rw [harg, hls]
    simp only [Nat.zero_add]
  refine ⟨_, [l0] ++ ls, _, hcommit, by simp [hlslen]; omega, ?_, by rw [hchain0], ?_, ?_, ?_,
    rfl, rfl⟩
  · intro k hk
    have hoff := fri_chain_offset P MB T p_0 off d s k
    have hds := fri_chain_dsize P MB T p_0 off d s k
    refine ⟨hoff, hds, ?_⟩
    match k with
    | 0 =>
      refine ⟨l0, by simp, ?_, ?_, ?_, hl0t⟩
      · rw [hl0e, hchain0]
        simp
      · rw [hl0o]; simp
      · rw [hl0d]; simp
    | k + 1 =>
      have hget := hlsget k (by omega)
      obtain ⟨l, hl, hle, hlo, hld, hlt⟩ := new_fri_layer_spec P MB
        (fri_chain P MB T p_0 off d s (k + 1)).1
        (fri_chain P MB T p_0 off d s (k + 1)).2.1
        (fri_chain P MB T p_0 off d s (k + 1)).2.2.1
      have hlayer : fri_chain_layer P MB T p_0 off d s (k + 1) = some l := by
        rw [fri_chain_layer]; exact hl
      refine ⟨l, ?_, ?_, ?_, ?_, hlt⟩
      · have hidx : ([l0] ++ ls).get? (k + 1) = ls.get? k := by simp
        rw [hidx, hget, ← hlayer]
        congr 1
        omega
      · rw [hle, hoff, hds]
      · rw [hlo, hoff]
      · rw [hld, hds]
  · intro k
    rfl
  · rfl
  · intro k
    rfl

instance : Fact (Nat.Prime 5) := ⟨by norm_num⟩

/-- Tiny concrete instantiation used to exercise the FRI commit phase. -/
def fftP5 : FFTParams (ZMod 5) := ⟨fun _ => 1⟩

def merkleB5 : MerkleBackend (ZMod 5) Nat :=
  ⟨fun x => x.val, fun a b => 2 * a + 3 * b + 1⟩

def transcript5 : StarkTranscript (ZMod 5) Unit :=
  ⟨fun _ _ => (), fun _ _ => (), fun _ => (0, ()), fun _ _ => (0, ()),
   fun _ => [], fun _ _ _ => (0, ())⟩

/-- Witness for C4, exercising the extreme case `d = 1`, `L = 2`: the second
layer has domain size `1 / 2 = 0`, yet its evaluation vector is the non-empty
`next_power_of_two (max coeff_len 0)` points, the Merkle commit succeeds and
exactly 2 layers are produced. -/
theorem claim_C4_fri_commit_phase_layers_witness :
    (1 ≤ 2) ∧ ((1:Nat) = 2 ^ 0) ∧
    ∃ lv layers σ',
      fri_commit_phase fftP5 merkleB5 transcript5 2 [1, 2] () 1 1 =
        some ((lv, layers), σ') ∧ layers.length = 2 := by
  refine ⟨by decide, by decide, ?_⟩
  obtain ⟨lv, layers, σ', h1, h2, _⟩ :=
    claim_C4_fri_commit_phase_layers fftP5 merkleB5 transcript5 [1, 2] () 1 1 2
      (by decide) 0 (by decide)
  exact ⟨lv, layers, σ', h1, h2⟩

/-! ### Behaviour of the FRI query phase (claim C5) -/

/-- A tree built over `rows` answers `get_proof` at any position below the
row count. -/
theorem get_proof_some_of_build {α β : Type} (B : MerkleBackend α β) (d : β)
    {rows : List α} {t : MerkleTree β} (ht : MerkleTree.build B d rows = some t)
    {pos : Nat} (hpos : pos < rows.length) :
    ∃ pr, t.get_proof pos = some pr := by
  have hne : rows ≠ [] := by
    intro hnil
    subst hnil
    simp at hpos
  obtain ⟨t', n, h1, _, h3, _, h5, _⟩ := MerkleTree.build_spec B d rows hne
  have htt : t = t' := Option.some.inj (ht.symm.trans h1)
  subst htt
  have hodd : t.nodes.length % 2 = 1 := by omega
  have hlt : pos + t.nodes.length / 2 < t.nodes.length := by omega
  obtain ⟨path, hpath⟩ := build_merkle_path_ok hlt hodd
  refine ⟨{ merkle_path := path }, ?_⟩
  rw [MerkleTree.get_proof, hpath]

/-- `mapM` over `Option` succeeds pointwise. -/
theorem list_mapM_eq_some {A B : Type} (f : A → Option B) (g : A → B) :
    ∀ xs : List A, (∀ x ∈ xs, f x = some (g x)) → xs.mapM f = some (xs.map g) := by
  intro xs
  induction xs with
  | nil => intro _; rfl
  | cons x xs ih =>
    intro h
    rw [List.mapM_cons, h x (by simp), ih (fun y hy => h y (by simp [hy]))]
    rfl

/-- C5: for every non-empty list of FRI layers (well-formed per the data
model: evaluation length equal to the — positive — domain size, tree built
over the evaluations) and every list of query indices, the query phase
returns one `FriDecommitment` per `ι` containing, for every layer in order,
the evaluation and Merkle authentication path at `ι % domain_size` and at
`(ι + domain_size/2) % domain_size`; for an empty layer list it returns the
empty list. -/
theorem claim_C5_fri_query_phase (MB : MerkleBackend F Nat)
    (fri_layers : List (FriLayer F)) (iotas : List Nat)
    (hwf : ∀ l ∈ fri_layers, l.evaluation.length = l.domain_size ∧
      1 ≤ l.domain_size ∧ MerkleTree.build MB 0 l.evaluation = some l.merkle_tree) :
    (fri_layers = [] → fri_query_phase fri_layers iotas = some []) ∧
    (fri_layers ≠ [] → ∃ ds, fri_query_phase fri_layers iotas = some ds ∧
      ds.length = iotas.length ∧
      ∀ s, s < iotas.length → ∃ dec, ds.get? s = some dec ∧
        dec.layers_evaluations.length = fri_layers.length ∧
        dec.layers_evaluations_sym.length = fri_layers.length ∧
        dec.layers_auth_paths.length = fri_layers.length ∧
        dec.layers_auth_paths_sym.length = fri_layers.length ∧
        ∀ j, j < fri_layers.length → ∃ layer, fri_layers.get? j = some layer ∧
          dec.layers_evaluations.get? j =
            layer.evaluation.get? (iotas.getD s 0 % layer.domain_size) ∧
          dec.layers_evaluations_sym.get? j =
            layer.evaluation.get?
              ((iotas.getD s 0 + layer.domain_size / 2) % layer.domain_size) ∧
          dec.layers_auth_paths.get? j =
            layer.merkle_tree.get_proof (iotas.getD s 0 % layer.domain_size) ∧
          dec.layers_auth_paths_sym.get? j =
            layer.merkle_tree.get_proof
              ((iotas.getD s 0 + layer.domain_size / 2) % layer.domain_size)) := by
  constructor
  · intro h
    subst h
    rfl
  · intro hne
    -- each per-layer extraction succeeds
    have hinner : ∀ (iota : Nat) (layer : FriLayer F), layer ∈ fri_layers →
        (fun (layer : FriLayer F) =>
          let index := iota % layer.domain_size
          let index_sym := (iota + layer.domain_size / 2) % layer.domain_size
          match layer.evaluation.get? index_sym, layer.merkle_tree.get_proof index_sym,
                layer.evaluation.get? index, layer.merkle_tree.get_proof index with
          | some e_sym, some p_sym, some e, some p => some (p_sym, e_sym, e, p)
          | _, _, _, _ => none) layer =
        some ((layer.merkle_tree.get_proof
                 ((iota + layer.domain_size / 2) % layer.domain_size)).getD ⟨[]⟩,
              layer.evaluation.getD
                ((iota + layer.domain_size / 2) % layer.domain_size) 0,
              layer.evaluation.getD (iota % layer.domain_size) 0,
              (layer.merkle_tree.get_proof (iota % layer.domain_size)).getD ⟨[]⟩) := by
      intro iota layer hmem
      obtain ⟨hlen, hpos, htree⟩ := hwf layer hmem
      have hidx : iota % layer.domain_size < layer.evaluation.length := by
        rw [hlen]; exact Nat.mod_lt _ (by omega)
      have hidx_sym : (iota + layer.domain_size / 2) % layer.domain_size <
          layer.evaluation.length := by
        rw [hlen]; exact Nat.mod_lt _ (by omega)
      obtain ⟨pr, hpr⟩ := get_proof_some_of_build MB 0 htree hidx
      obtain ⟨pr_sym, hpr_sym⟩ := get_proof_some_of_build MB 0 htree hidx_sym
      simp only [List.get?_eq_getElem?, List.getElem?_eq_getElem hidx,
        List.getElem?_eq_getElem hidx_sym, hpr, hpr_sym]
      simp [List.getD_eq_getElem?_getD, List.getElem?_eq_getElem hidx,
        List.getElem?_eq_getElem hidx_sym]
    -- assemble the per-iota decommitment
    have hper : ∀ iota : Nat,
        (fri_layers.mapM (fun (layer : FriLayer F) =>
          let index := iota % layer.domain_size
          let index_sym := (iota + layer.domain_size / 2) % layer.domain_size
          match layer.evaluation.get? index_sym, layer.merkle_tree.get_proof index_sym,
                layer.evaluation.get? index, layer.merkle_tree.get_proof index with
          | some e_sym, some p_sym, some e, some p => some (p_sym, e_sym, e, p)
          | _, _, _, _ => none)) =
        some (fri_layers.map (fun (layer : FriLayer F) =>
          ((layer.merkle_tree.get_proof
              ((iota + layer.domain_size / 2) % layer.domain_size)).getD ⟨[]⟩,
           layer.evaluation.getD
             ((iota + layer.domain_size / 2) % layer.domain_size) 0,
           layer.evaluation.getD (iota % layer.domain_size) 0,
           (layer.merkle_tree.get_proof (iota % layer.domain_size)).getD ⟨[]⟩))) := by
      intro iota
      exact list_mapM_eq_some _ _ fri_layers (hinner iota)
    have hempty : fri_layers.isEmpty = false := by
      cases fri_layers with
      | nil => exact absurd rfl hne
      | cons a l => rfl
    rw [fri_query_phase, hempty]
    simp only [Bool.false_eq_true, if_false]
    refine ⟨_, list_mapM_eq_some _
      (fun iota_s => (
        { layers_auth_paths_sym := fri_layers.map (fun layer =>
            (layer.merkle_tree.get_proof
              ((iota_s + layer.domain_size / 2) % layer.domain_size)).getD ⟨[]⟩)
          layers_evaluations_sym := fri_layers.map (fun layer =>
            layer.evaluation.getD
              ((iota_s + layer.domain_size / 2) % layer.domain_size) 0)
          layers_evaluations := fri_layers.map (fun layer =>
            layer.evaluation.getD (iota_s % layer.domain_size) 0)
          layers_auth_paths := fri_layers.map (fun layer =>
            (layer.merkle_tree.get_proof (iota_s % layer.domain_size)).getD ⟨[]⟩)
          : FriDecommitment F })) iotas ?_, by simp, ?_⟩
    · intro iota _
      rw [hper iota]
      simp only [Option.map_some, Option.some.injEq]
      simp [List.map_map]
    intro s hs
    have hget : iotas.get? s = some (iotas.getD s 0) := by
      rw [List.get?_eq_getElem?, List.getElem?_eq_getElem hs]
      rw [List.getD_eq_getElem?_getD, List.getElem?_eq_getElem hs]
      rfl
    have hdec : (List.map (fun iota_s => (
        { layers_auth_paths_sym := fri_layers.map (fun layer =>
            (layer.merkle_tree.get_proof
              ((iota_s + layer.domain_size / 2) % layer.domain_size)).getD ⟨[]⟩)
          layers_evaluations_sym := fri_layers.map (fun layer =>
            layer.evaluation.getD
              ((iota_s + layer.domain_size / 2) % layer.domain_size) 0)
          layers_evaluations := fri_layers.map (fun layer =>
            layer.evaluation.getD (iota_s % layer.domain_size) 0)
          layers_auth_paths := fri_layers.map (fun layer =>
            (layer.merkle_tree.get_proof (iota_s % layer.domain_size)).getD ⟨[]⟩)
          : FriDecommitment F })) iotas).get? s = some (
        { layers_auth_paths_sym := fri_layers.map (fun layer =>
            (layer.merkle_tree.get_proof
              ((iotas.getD s 0 + layer.domain_size / 2) % layer.domain_size)).getD ⟨[]⟩)
          layers_evaluations_sym := fri_layers.map (fun layer =>
            layer.evaluation.getD
              ((iotas.getD s 0 + layer.domain_size / 2) % layer.domain_size) 0)
          layers_evaluations := fri_layers.map (fun layer =>
            layer.evaluation.getD (iotas.getD s 0 % layer.domain_size) 0)
          layers_auth_paths := fri_layers.map (fun layer =>
            (layer.merkle_tree.get_proof (iotas.getD s 0 % layer.domain_size)).getD ⟨[]⟩)
          : FriDecommitment F }) := by
      rw [List.get?_map, hget]
      rfl
    refine ⟨_, hdec, by exact List.length_map _ _, by exact List.length_map _ _,
      by exact List.length_map _ _, by exact List.length_map _ _, ?_⟩
    · intro j hj
      have hmemj : fri_layers[j] ∈ fri_layers := List.getElem_mem hj
      obtain ⟨hlen, hpos, htree⟩ := hwf _ hmemj
      have hlayer : fri_layers.get? j = some fri_layers[j] := by
        rw [List.get?_eq_getElem?, List.getElem?_eq_getElem hj]
      set layer := fri_layers[j] with hldef
      have hidx : iotas.getD s 0 % layer.domain_size < layer.evaluation.length := by
        rw [hlen]; exact Nat.mod_lt _ (by omega)
      have hidx_sym : (iotas.getD s 0 + layer.domain_size / 2) % layer.domain_size <
          layer.evaluation.length := by
        rw [hlen]; exact Nat.mod_lt _ (by omega)
      obtain ⟨pr, hpr⟩ := get_proof_some_of_build MB 0 htree hidx
      obtain ⟨pr_sym, hpr_sym⟩ := get_proof_some_of_build MB 0 htree hidx_sym
      refine ⟨layer, hlayer, ?_, ?_, ?_, ?_⟩
      · rw [List.get?_eq_getElem?, List.getElem?_map, List.getElem?_eq_getElem hj]
        simp only [Option.map_some']
        rw [List.get?_eq_getElem?, List.getElem?_eq_getElem hidx]
        rw [List.getD_eq_getElem?_getD, List.getElem?_eq_getElem hidx]
        rfl
      · rw [List.get?_eq_getElem?, List.getElem?_map, List.getElem?_eq_getElem hj]
        simp only [Option.map_some']
        rw [List.get?_eq_getElem?, List.getElem?_eq_getElem hidx_sym]
        rw [List.getD_eq_getElem?_getD, List.getElem?_eq_getElem hidx_sym]
        rfl
      · rw [List.get?_eq_getElem?, List.getElem?_map, List.getElem?_eq_getElem hj]
        simp only [Option.map_some']
        rw [hpr]
        rfl
      · rw [List.get?_eq_getElem?, List.getElem?_map, List.getElem?_eq_getElem hj]
        simp only [Option.map_some']
        rw [hpr_sym]
        rfl

theorem claim_C5_fri_query_phase_witness :
    (∀ l ∈ [(⟨[1, 2], ⟨9, [9, 1, 2]⟩, 1, 2⟩ : FriLayer (ZMod 5))],
      l.evaluation.length = l.domain_size ∧ 1 ≤ l.domain_size ∧
        MerkleTree.build merkleB5 0 l.evaluation = some l.merkle_tree) ∧
    (([(⟨[1, 2], ⟨9, [9, 1, 2]⟩, 1, 2⟩ : FriLayer (ZMod 5))] ≠ []) ∧
      ∃ ds, fri_query_phase [(⟨[1, 2], ⟨9, [9, 1, 2]⟩, 1, 2⟩ : FriLayer (ZMod 5))] [3] =
        some ds ∧ ds.length = 1) := by
  have hwf : ∀ l ∈ [(⟨[1, 2], ⟨9, [9, 1, 2]⟩, 1, 2⟩ : FriLayer (ZMod 5))],
      l.evaluation.length = l.domain_size ∧ 1 ≤ l.domain_size ∧
        MerkleTree.build merkleB5 0 l.evaluation = some l.merkle_tree := by
    intro l hl
    simp only [List.mem_singleton] at hl
    subst hl
    refine ⟨rfl, by decide, by decide⟩
  refine ⟨hwf, by decide, ?_⟩
  obtain ⟨ds, h1, h2, _⟩ :=
    (claim_C5_fri_query_phase merkleB5 _ [3] hwf).2 (by decide)
  exact ⟨ds, h1, by simpa using h2⟩

/-! ## §5 STARK data model (`provers/stark/src`)

`proof/options.rs`, `context.rs`, `constraints/boundary.rs`, `frame.rs`,
`domain.rs`, `proof/stark.rs` and `grinding.rs` are not in the snapshot and
are modelled from the spec; `traits.rs`, `trace.rs`, `prover.rs`,
`verifier.rs` and `examples/simple_fibonacci.rs` are embedded from source. -/

/-- Modelled from the spec (§6, Configuration): `ProofOptions`. -/
structure ProofOptions where
  blowup_factor : Nat
  fri_number_of_queries : Nat
  coset_offset : Nat
  grinding_factor : Nat
deriving DecidableEq, Repr

/-- `context.rs` (modelled from its uses in `simple_fibonacci.rs` and
`verifier.rs`; the verifier reads `transition_degrees`, which the Fibonacci
example does not set — we carry the field and give the example the value
`[1]`, its one constraint being of degree one). -/
structure AirContext where
  proof_options : ProofOptions
  trace_columns : Nat
  transition_exemptions : List Nat
  transition_offsets : List Nat
  transition_degrees : List Nat
  num_transition_constraints : Nat
deriving DecidableEq, Repr

/-- Modelled from the spec: one boundary constraint — a trace column must
take `value` at step `step` (`new_simple_main` fixes column 0). -/
structure BoundaryConstraint (F : Type) where
  col : Nat
  step : Nat
  value : F
deriving DecidableEq, Repr

def BoundaryConstraint.new_simple_main (step : Nat) (value : F) :
    BoundaryConstraint F :=
  { col := 0, step := step, value := value }

/-- `frame.rs` (modelled from its uses): a row-major table of evaluations,
`row_width` values per row. -/
structure Frame (F : Type) where
  data : List F
  row_width : Nat
deriving DecidableEq, Repr

def Frame.num_columns (f : Frame F) : Nat := f.row_width

def Frame.num_rows (f : Frame F) : Nat := f.data.length / f.row_width

def Frame.get_row (f : Frame F) (i : Nat) : List F :=
  (f.data.drop (i * f.row_width)).take f.row_width

/-- `trace.rs::TraceTable`, kept as its list of columns (step size 1, as in
the Fibonacci example). -/
structure TraceTable (F : Type) where
  columns : List (List F)
deriving DecidableEq, Repr

def TraceTable.n_rows (t : TraceTable F) : Nat := (t.columns.headD []).length

def TraceTable.is_empty (t : TraceTable F) : Bool := t.columns.isEmpty

def TraceTable.get_row (t : TraceTable F) (i : Nat) : List F :=
  t.columns.map (fun c => c.getD i 0)

def TraceTable.rows (t : TraceTable F) : List (List F) :=
  (List.range t.n_rows).map (fun i => t.get_row i)

/-- `trace.rs::compute_trace_polys`: interpolate each column over the trace
roots of unity. -/
def TraceTable.compute_trace_polys (P : FFTParams F) (t : TraceTable F) :
    List (List F) :=
  t.columns.map (fun col => interpolate_fft P col)

/-- The AIR capability record (trait `AIR` of `traits.rs`), specialized to a
transcript-state type `σ` and a RAP-challenge type `R`.  `Field =
FieldExtension` (as in the Fibonacci AIR). -/
structure Air (F R σ : Type) where
  context : AirContext
  trace_length : Nat
  build_auxiliary_trace : TraceTable F → R → TraceTable F
  build_rap_challenges : σ → R × σ
  number_auxiliary_rap_columns : Nat
  compute_transition : Frame F → R → List F
  boundary_constraints : R → List (BoundaryConstraint F)

def Air.options {R σ : Type} (air : Air F R σ) : ProofOptions :=
  air.context.proof_options

/-- `itertools::unique_by` keeping first occurrences (used by
`traits.rs::transition_exemptions`). -/
def unique_keep_first_fuel : Nat → List Nat → List Nat
  | 0, _ => []
  | _, [] => []
  | fuel + 1, a :: rest =>
    a :: unique_keep_first_fuel fuel (rest.filter (fun b => b ≠ a))

def unique_keep_first (l : List Nat) : List Nat :=
  unique_keep_first_fuel l.length l

/-- `traits.rs::transition_exemptions` (default trait method): for each
distinct non-zero exemption count `cant`, the product of `(x - root)` over
the last `cant` trace roots of unity. -/
def Air.transition_exemptions {R σ : Type} (air : Air F R σ) (P : FFTParams F) :
    List (List F) :=
  let trace_length := air.trace_length
  let roots_of_unity :=
    get_powers_of_primitive_root_coset P (nat_log2 trace_length) trace_length 1
  ((unique_keep_first air.context.transition_exemptions).filter (fun v => 0 < v)).map
    (fun cant =>
      (roots_of_unity.reverse.take cant).foldl
        (fun acc root => poly_mul acc [-root, 1]) [1])

/-- `traits.rs::transition_exemptions_verifier` (default trait method): for
`index = 1 … max`, the product `Π_{k=1..index} (x - root^k)`; the `.max()`
call panics on an empty exemption list, surfaced as `none`. -/
def Air.transition_exemptions_verifier {R σ : Type} (air : Air F R σ) (root : F) :
    Option (List (List F)) :=
  match air.context.transition_exemptions.maximum? with
  | none => none
  | some mx =>
    some ((List.range mx).map (fun i0 =>
      (List.range (i0 + 1)).foldl
        (fun acc k0 => poly_mul acc [-(root ^ (k0 + 1)), 1]) [1]))

/-- Modelled from the spec (§4.4, `domain.rs`): the domain derived once per
proof from the trace length and the options (`root_order = log2 n`, the two
primitive roots, the full LDE coset `{offset · h^i}`), matching the
assertions of the prover's `test_domain_constructor`. -/
structure Domain (F : Type) where
  root_order : Nat
  lde_roots_of_unity_coset : List F
  trace_primitive_root : F
  trace_roots_of_unity : List F
  blowup_factor : Nat
  coset_offset : F
  interpolation_domain_size : Nat
  lde_root_order : Nat

def Domain.new (P : FFTParams F) (trace_length : Nat) (opts : ProofOptions) :
    Domain F :=
  let root_order := nat_log2 trace_length
  let lde_root_order := nat_log2 (trace_length * opts.blowup_factor)
  let coset_offset : F := (opts.coset_offset : Nat)
  { root_order := root_order
    lde_root_order := lde_root_order
    trace_primitive_root := P.primitive_root root_order
    trace_roots_of_unity :=
      get_powers_of_primitive_root_coset P root_order trace_length 1
    lde_roots_of_unity_coset :=
      get_powers_of_primitive_root_coset P lde_root_order
        (trace_length * opts.blowup_factor) coset_offset
    blowup_factor := opts.blowup_factor
    coset_offset := coset_offset
    interpolation_domain_size := trace_length }

/-- Modelled from the spec (`grinding.rs`): the grinding hash is an external
collaborator; `count state nonce` is the number of leading zero bits of the
hash of the transcript state with the nonce, and `search_bound` bounds the
prover's nonce search. -/
structure GrindingParams where
  count : List Nat → Nat → Nat
  search_bound : Nat

/-- `grinding.rs::generate_nonce_with_grinding` (modelled from the spec):
the first nonce whose hash has at least `grinding_factor` leading zeros. -/
def generate_nonce_with_grinding (G : GrindingParams) (challenge : List Nat)
    (grinding_factor : Nat) : Option Nat :=
  (List.range G.search_bound).find? (fun nonce => grinding_factor ≤ G.count challenge nonce)

/-- `grinding.rs::hash_transcript_with_int_and_get_leading_zeros` (modelled
from the spec): the same leading-zero count, as used by the verifier. -/
def hash_transcript_with_int_and_get_leading_zeros (G : GrindingParams)
    (challenge : List Nat) (nonce : Nat) : Nat :=
  G.count challenge nonce

/-- `proof/stark.rs::DeepPolynomialOpenings` (modelled from its uses in
`prover.rs`/`verifier.rs`). -/
structure DeepPolynomialOpenings (F : Type) where
  lde_composition_poly_proof : MerkleProof Nat
  lde_composition_poly_parts_evaluation : List F
  lde_trace_merkle_proofs : List (MerkleProof Nat)
  lde_trace_evaluations : List F
deriving DecidableEq

/-- `proof/stark.rs::StarkProof` (modelled from its uses).  The verifier
reads `deep_poly_openings_sym`, but `prove` never constructs that field (its
`StarkProof` literal has no such entry); the model has `prove` leave it
empty. -/
structure StarkProof (F : Type) where
  lde_trace_merkle_roots : List Nat
  trace_ood_frame_evaluations : Frame F
  composition_poly_root : Nat
  composition_poly_parts_ood_evaluation : List F
  fri_layers_merkle_roots : List Nat
  fri_last_value : F
  query_list : List (FriDecommitment F)
  deep_poly_openings : List (DeepPolynomialOpenings F)
  deep_poly_openings_sym : List (DeepPolynomialOpenings F)
  nonce : Nat
  trace_length : Nat
deriving DecidableEq

/-! ## §6 Prover (`provers/stark/src/prover.rs`)

The batched Merkle backend (rows of field elements, digest `Nat`) is `BB`,
the FRI backend (single field elements) is `MB`. -/

/-- `prover.rs::batch_commit`: build the batched tree, return it with its
root. -/
def batch_commit (BB : MerkleBackend (List F) Nat) (vectors : List (List F)) :
    Option (MerkleTree Nat × Nat) :=
  (MerkleTree.build BB 0 vectors).map (fun t => (t, t.root))

/-- `Iterator::step_by`. -/
def step_by {A : Type} (n : Nat) (l : List A) : List A :=
  ((List.range l.length).filter (fun i => i % n == 0)).filterMap (fun i => l.get? i)

/-- `prover.rs::evaluate_polynomial_on_lde_domain` (lines 87–103): offset-FFT
evaluation, then a stride when the FFT returned more points than
`domain_size * blowup_factor`. -/
def evaluate_polynomial_on_lde_domain (P : FFTParams F) (p : List F)
    (blowup_factor domain_size : Nat) (offset : F) : List F :=
  let evaluations := evaluate_offset_fft P p blowup_factor domain_size offset
  let step := evaluations.length / (domain_size * blowup_factor)
  if step == 1 then evaluations else step_by step evaluations

/-- Every `n`-th element, fuelled (`Polynomial::break_in_parts` helper). -/
def stride_fuel {A : Type} : Nat → Nat → List A → List A
  | 0, _, _ => []
  | _ + 1, _, [] => []
  | fuel + 1, n, a :: rest => a :: stride_fuel fuel n (rest.drop (n - 1))

/-- Modelled from the spec: `Polynomial::break_in_parts(N)` splits
`h(x) = Σᵢ xⁱ hᵢ(x^N)` into its `N` parts — part `i` takes every `N`-th
coefficient starting at index `i`. -/
def break_in_parts (p : List F) (number_of_parts : Nat) : List (List F) :=
  (List.range number_of_parts).map (fun i => stride_fuel p.length number_of_parts (p.drop i))

/-- `Round1` (prover.rs lines 39–50). -/
structure Round1 (F R : Type) where
  trace_polys : List (List F)
  lde_trace : TraceTable F
  lde_trace_merkle_trees : List (MerkleTree Nat)
  lde_trace_merkle_roots : List Nat
  rap_challenges : R

/-- `Round2` (lines 52–61). -/
structure Round2 (F : Type) where
  composition_poly_parts : List (List F)
  lde_composition_poly_evaluations : List (List F)
  composition_poly_merkle_tree : MerkleTree Nat
  composition_poly_root : Nat

/-- `Round3` (lines 63–66). -/
structure Round3 (F : Type) where
  trace_ood_evaluations : List (List F)
  composition_poly_parts_ood_evaluation : List F

/-- `Round4` (lines 68–74). -/
structure Round4 (F : Type) where
  fri_last_value : F
  fri_layers_merkle_roots : List Nat
  deep_poly_openings : List (DeepPolynomialOpenings F)
  query_list : List (FriDecommitment F)
  nonce : Nat

/-- `prover.rs::interpolate_and_commit` (lines 147–179): interpolate the
columns, evaluate on the LDE coset, commit the row table, append the root. -/
def interpolate_and_commit {σ : Type} (P : FFTParams F)
    (BB : MerkleBackend (List F) Nat) (T : StarkTranscript F σ)
    (trace : TraceTable F) (domain : Domain F) (s : σ) :
    Option ((List (List F) × List (List F) × MerkleTree Nat × Nat) × σ) :=
  let trace_polys := trace.compute_trace_polys P
  let lde_trace_evaluations := trace_polys.map (fun poly =>
    evaluate_polynomial_on_lde_domain P poly domain.blowup_factor
      domain.interpolation_domain_size domain.coset_offset)
  let lde_trace : TraceTable F := ⟨lde_trace_evaluations⟩
  match batch_commit BB lde_trace.rows with
  | none => none
  | some (tree, root) =>
    some ((trace_polys, lde_trace_evaluations, tree, root), T.append_bytes s [root])

/-- `prover.rs::round_1_randomized_air_with_preprocessing` (lines 207–244). -/
def round_1_randomized_air_with_preprocessing {R σ : Type} (P : FFTParams F)
    (BB : MerkleBackend (List F) Nat) (T : StarkTranscript F σ)
    (air : Air F R σ) (main_trace : TraceTable F) (domain : Domain F) (s : σ) :
    Option (Round1 F R × σ) :=
  match interpolate_and_commit P BB T main_trace domain s with
  | none => none
  | some ((trace_polys, evaluations, main_merkle_tree, main_merkle_root), s1) =>
    let rap := air.build_rap_challenges s1
    let aux_trace := air.build_auxiliary_trace main_trace rap.1
    if aux_trace.is_empty then
      some ({ trace_polys := trace_polys
              lde_trace := ⟨evaluations⟩
              lde_trace_merkle_trees := [main_merkle_tree]
              lde_trace_merkle_roots := [main_merkle_root]
              rap_challenges := rap.1 }, rap.2)
    else
      match interpolate_and_commit P BB T aux_trace domain rap.2 with
      | none => none
      | some ((aux_polys, aux_evals, aux_tree, aux_root), s2) =>
        some ({ trace_polys := trace_polys ++ aux_polys
                lde_trace := ⟨evaluations ++ aux_evals⟩
                lde_trace_merkle_trees := [main_merkle_tree, aux_tree]
                lde_trace_merkle_roots := [main_merkle_root, aux_root]
                rap_challenges := rap.1 }, s2)

/-- Modelled from the spec (round 2 of §4.5; `constraints/evaluator.rs` is
not in the snapshot): the constraint-composition polynomial `H`.  Its value
at a point `x` of the LDE coset is the β-weighted sum of the boundary
quotients `(t_col(x) - v)/(x - g^step)` plus the β-weighted sum of the
transition quotients `C_k(frame at x) · E_k(x) / (x^N - 1)`, where `E_k` is
the exemption factor for the constraint's exemption count (the same
`(x - root^k)` products the verifier uses in step 2); `H` is the
interpolation of those values over the coset
(`compute_composition_poly(&coset_offset)`). -/
def composition_poly_H {R σ : Type} (air : Air F R σ)
    (rap : R) (domain : Domain F) (trace_polys : List (List F))
    (transition_coefficients boundary_coefficients : List F) : List F :=
  let bcs := air.boundary_constraints rap
  let g := domain.trace_primitive_root
  let n := air.trace_length
  let last_root := g ^ (n - 1)
  let exemption_polys :=
    (Air.transition_exemptions_verifier air last_root).getD []
  let value_at := fun (x : F) =>
    let boundary := (bcs.zip boundary_coefficients).foldl
      (fun acc (p : BoundaryConstraint F × F) =>
        acc + p.2 * (poly_eval (trace_polys.getD p.1.col []) x - p.1.value) /
          (x - g ^ p.1.step)) 0
    let frame : Frame F := ⟨air.context.transition_offsets.flatMap
      (fun k => trace_polys.map (fun poly => poly_eval poly (x * g ^ k))),
      trace_polys.length⟩
    let transition_evals := air.compute_transition frame rap
    let transitions := ((transition_evals.zip air.context.transition_exemptions).zip
        transition_coefficients).foldl
      (fun acc (q : (F × Nat) × F) =>
        let e := q.1.2
        let exemption := if e = 0 then 1 else poly_eval (exemption_polys.getD (e - 1) [1]) x
        acc + q.2 * q.1.1 * exemption / (x ^ n - 1)) 0
    boundary + transitions
  let evaluations := domain.lde_roots_of_unity_coset.map value_at
  interpolate domain.lde_roots_of_unity_coset evaluations

/-- `prover.rs::commit_composition_polynomial` (lines 246–267): transpose
the per-part evaluation columns into rows and batch-commit them. -/
def commit_composition_polynomial (BB : MerkleBackend (List F) Nat)
    (lde_composition_poly_parts_evaluations : List (List F)) :
    Option (MerkleTree Nat × Nat) :=
  let rows := (List.range (lde_composition_poly_parts_evaluations.headD []).length).map
    (fun i => lde_composition_poly_parts_evaluations.map (fun part => part.getD i 0))
  batch_commit BB rows

/-- `prover.rs::round_2_compute_composition_polynomial` (lines 269–321):
`number_of_parts = 1` is fixed in the source. -/
def round_2_compute_composition_polynomial {R σ : Type} (P : FFTParams F)
    (BB : MerkleBackend (List F) Nat) (air : Air F R σ) (domain : Domain F)
    (round_1_result : Round1 F R)
    (transition_coefficients boundary_coefficients : List F) :
    Option (Round2 F) :=
  let composition_poly := composition_poly_H air round_1_result.rap_challenges domain
    round_1_result.trace_polys transition_coefficients boundary_coefficients
  let number_of_parts := 1
  let composition_poly_parts := break_in_parts composition_poly number_of_parts
  let lde_composition_poly_parts_evaluations := composition_poly_parts.map (fun part =>
    evaluate_polynomial_on_lde_domain P part domain.blowup_factor
      domain.interpolation_domain_size domain.coset_offset)
  match commit_composition_polynomial BB lde_composition_poly_parts_evaluations with
  | none => none
  | some (tree, root) =>
    some { composition_poly_parts := composition_poly_parts
           lde_composition_poly_evaluations := lde_composition_poly_parts_evaluations
           composition_poly_merkle_tree := tree
           composition_poly_root := root }

/-- `prover.rs::round_3_evaluate_polynomials_in_out_of_domain_element`
(lines 323–361): evaluate each part at `z^N` and the trace polynomials at
`z·g^k` for each frame offset (one row per offset). -/
def round_3_evaluate_polynomials_in_out_of_domain_element {R σ : Type}
    (air : Air F R σ) (domain : Domain F) (round_1_result : Round1 F R)
    (round_2_result : Round2 F) (z : F) : Round3 F :=
  let z_power := z ^ round_2_result.composition_poly_parts.length
  let parts_ood := round_2_result.composition_poly_parts.map (fun part =>
    poly_eval part z_power)
  let trace_ood := air.context.transition_offsets.map (fun k =>
    round_1_result.trace_polys.map (fun poly =>
      poly_eval poly (z * domain.trace_primitive_root ^ k)))
  { trace_ood_evaluations := trace_ood
    composition_poly_parts_ood_evaluation := parts_ood }

/-- Sample `n` field elements in sequence (`batch_sample_challenges` of the
missing `transcript.rs`, modelled from the spec's "sample linear-combination
coefficients"). -/
def batch_sample_challenges {σ : Type} (T : StarkTranscript F σ) :
    Nat → σ → List F × σ
  | 0, s => ([], s)
  | n + 1, s =>
    let zs := T.sample_field_element s
    let rest := batch_sample_challenges T n zs.2
    (zs.1 :: rest.1, rest.2)

/-- Sample `n` query indices below `bound`
(`sample_query_indexes` / the prover-side iota sampling). -/
def sample_query_indexes {σ : Type} (T : StarkTranscript F σ) :
    Nat → Nat → σ → List Nat × σ
  | 0, _, s => ([], s)
  | n + 1, bound, s =>
    let us := T.sample_u64 s bound
    let rest := sample_query_indexes T n bound us.2
    (us.1 :: rest.1, rest.2)

/-- `prover.rs::compute_trace_term` (lines 528–563). -/
def compute_trace_term (trace_terms : List F) (i : Nat) (t_j : List F)
    (trace_frame_length : Nat) (trace_terms_gammas : List F)
    (trace_frame_evaluations : List (List F)) (transition_offsets : List Nat)
    (z primitive_root : F) : List F :=
  let iter_trace_gammas := trace_terms_gammas.drop (i * trace_frame_length)
  let trace_int := ((trace_frame_evaluations.zip transition_offsets).zip
      iter_trace_gammas).foldl
    (fun trace_agg (q : (List F × Nat) × F) =>
      let t_j_z := q.1.1.getD i 0
      let z_shifted := z * primitive_root ^ q.1.2
      let p := ruffini_division (poly_sub t_j [t_j_z]) z_shifted
      poly_add trace_agg (poly_scale q.2 p)) []
  poly_add trace_terms trace_int

/-- `prover.rs::compute_deep_composition_poly` (lines 445–526). -/
def compute_deep_composition_poly {R σ : Type} (air : Air F R σ)
    (trace_polys : List (List F)) (round_2_result : Round2 F)
    (round_3_result : Round3 F) (z primitive_root : F)
    (composition_poly_gammas trace_terms_gammas : List F) : List F :=
  let z_power := z ^ round_2_result.composition_poly_parts.length
  let h_sum := (List.range round_2_result.composition_poly_parts.length).foldl
    (fun h_terms i =>
      let part := round_2_result.composition_poly_parts.getD i []
      let h_i_eval := round_3_result.composition_poly_parts_ood_evaluation.getD i 0
      let h_i_term := poly_scale (composition_poly_gammas.getD i 0)
        (poly_sub part [h_i_eval])
      poly_add h_terms h_i_term) []
  let h_terms := ruffini_division h_sum z_power
  let transition_offsets := air.context.transition_offsets
  let trace_frame_evaluations := round_3_result.trace_ood_evaluations
  let trace_frame_length := trace_frame_evaluations.length
  let trace_terms := (List.range trace_polys.length).foldl
    (fun acc i =>
      compute_trace_term acc i (trace_polys.getD i []) trace_frame_length
        trace_terms_gammas trace_frame_evaluations transition_offsets
        z primitive_root) []
  poly_add h_terms trace_terms

/-- `prover.rs::open_deep_composition_poly` (lines 565–616). -/
def open_deep_composition_poly {R : Type} (domain : Domain F)
    (round_1_result : Round1 F R) (round_2_result : Round2 F)
    (indexes_to_open : List Nat) : Option (List (DeepPolynomialOpenings F)) :=
  indexes_to_open.mapM (fun index_to_open =>
    let index := index_to_open % domain.lde_roots_of_unity_coset.length
    match round_2_result.composition_poly_merkle_tree.get_proof index with
    | none => none
    | some lde_composition_poly_proof =>
      let lde_composition_poly_parts_evaluation :=
        round_2_result.lde_composition_poly_evaluations.map (fun part => part.getD index 0)
      let lde_trace_evaluations := round_1_result.lde_trace.get_row index
      match round_1_result.lde_trace_merkle_trees.mapM
          (fun tree => tree.get_proof index) with
      | none => none
      | some lde_trace_merkle_proofs =>
        some { lde_composition_poly_proof := lde_composition_poly_proof
               lde_composition_poly_parts_evaluation := lde_composition_poly_parts_evaluation
               lde_trace_merkle_proofs := lde_trace_merkle_proofs
               lde_trace_evaluations := lde_trace_evaluations })

/-- `prover.rs::round_4_compute_and_run_fri_on_the_deep_composition_polynomial`
(lines 363–439): sample `γ`s (one per composition part, then the batched
trace-term coefficients), build the DEEP polynomial, run the FRI commit
phase, grind a nonce and append it (unconditionally — contrast the
verifier's `security_bits > 0` guard), sample the iotas and run the query
phase, and open the trace and composition rows. -/
def round_4_compute_and_run_fri_on_the_deep_composition_polynomial
    {R σ : Type} (P : FFTParams F) (MB : MerkleBackend F Nat)
    (G : GrindingParams) (T : StarkTranscript F σ) (air : Air F R σ)
    (domain : Domain F) (round_1_result : Round1 F R) (round_2_result : Round2 F)
    (round_3_result : Round3 F) (z : F) (s : σ) : Option (Round4 F × σ) :=
  let coset_offset : F := (air.context.proof_options.coset_offset : Nat)
  let gs := batch_sample_challenges T
    round_2_result.lde_composition_poly_evaluations.length s
  let gammas := gs.1
  let ts := batch_sample_challenges T
    (air.context.transition_offsets.length * air.context.trace_columns) gs.2
  let trace_poly_coeffients := ts.1
  let deep_composition_poly := compute_deep_composition_poly air
    round_1_result.trace_polys round_2_result round_3_result z
    domain.trace_primitive_root gammas trace_poly_coeffients
  let domain_size := domain.lde_roots_of_unity_coset.length
  match fri_commit_phase P MB T domain.root_order deep_composition_poly ts.2
      coset_offset domain_size with
  | none => none
  | some ((fri_last_value, fri_layers), s1) =>
    let grinding_factor := air.context.proof_options.grinding_factor
    let transcript_challenge := T.state s1
    match generate_nonce_with_grinding G transcript_challenge grinding_factor with
    | none => none
    | some nonce =>
      let s2 := T.append_bytes s1 [nonce]
      let is_ := sample_query_indexes T air.options.fri_number_of_queries domain_size s2
      let iotas := is_.1
      match fri_query_phase fri_layers iotas with
      | none => none
      | some query_list =>
        let fri_layers_merkle_roots := fri_layers.map (fun layer => layer.merkle_tree.root)
        match open_deep_composition_poly domain round_1_result round_2_result iotas with
        | none => none
        | some deep_poly_openings =>
          some ({ fri_last_value := fri_last_value
                  fri_layers_merkle_roots := fri_layers_merkle_roots
                  deep_poly_openings := deep_poly_openings
                  query_list := query_list
                  nonce := nonce }, is_.2)

/-- `prover.rs::prove` (lines 619–830), with the transcript state threaded
explicitly.  Note the transcript op order of round 3: first the `Hᵢ(z^N)`
values, then the `tⱼ(zgᵏ)` rows (lines 739–749). -/
def prove {R σ : Type} (P : FFTParams F) (BB : MerkleBackend (List F) Nat)
    (MB : MerkleBackend F Nat) (G : GrindingParams) (T : StarkTranscript F σ)
    (mkAir : Nat → ProofOptions → Air F R σ) (main_trace : TraceTable F)
    (proof_options : ProofOptions) (s : σ) : Option (StarkProof F × σ) :=
  let air := mkAir main_trace.n_rows proof_options
  let domain := Domain.new P air.trace_length air.context.proof_options
  match round_1_randomized_air_with_preprocessing P BB T air main_trace domain s with
  | none => none
  | some (round_1_result, s1) =>
    let bs := T.sample_field_element s1
    let beta := bs.1
    let num_boundary_constraints :=
      (air.boundary_constraints round_1_result.rap_challenges).length
    let num_transition_constraints := air.context.num_transition_constraints
    let coefficients := (List.range
      (num_boundary_constraints + num_transition_constraints)).map (fun i => beta ^ i)
    let transition_coefficients := coefficients.take num_transition_constraints
    let boundary_coefficients := coefficients.drop num_transition_constraints
    match round_2_compute_composition_polynomial P BB air domain round_1_result
        transition_coefficients boundary_coefficients with
    | none => none
    | some round_2_result =>
      let s2 := T.append_bytes bs.2 [round_2_result.composition_poly_root]
      let zz := T.sample_z_ood s2 domain.lde_roots_of_unity_coset
        domain.trace_roots_of_unity
      let z := zz.1
      let round_3_result := round_3_evaluate_polynomials_in_out_of_domain_element
        air domain round_1_result round_2_result z
      let s3 := round_3_result.composition_poly_parts_ood_evaluation.foldl
        (fun st e => T.append_field_element st e) zz.2
      let s4 := round_3_result.trace_ood_evaluations.foldl
        (fun st row => row.foldl (fun st2 e => T.append_field_element st2 e) st) s3
      match round_4_compute_and_run_fri_on_the_deep_composition_polynomial
          P MB G T air domain round_1_result round_2_result round_3_result z s4 with
      | none => none
      | some (round_4_result, s5) =>
        some ({ lde_trace_merkle_roots := round_1_result.lde_trace_merkle_roots
                trace_ood_frame_evaluations :=
                  ⟨round_3_result.trace_ood_evaluations.flatten,
                   round_1_result.trace_polys.length⟩
                composition_poly_root := round_2_result.composition_poly_root
                composition_poly_parts_ood_evaluation :=
                  round_3_result.composition_poly_parts_ood_evaluation
                fri_layers_merkle_roots := round_4_result.fri_layers_merkle_roots
                fri_last_value := round_4_result.fri_last_value
                query_list := round_4_result.query_list
                deep_poly_openings := round_4_result.deep_poly_openings
                deep_poly_openings_sym := []
                nonce := round_4_result.nonce
                trace_length := air.trace_length }, s5)

/-! ## §7 Verifier (`provers/stark/src/verifier.rs`) -/

/-- `verifier.rs::Challenges` (lines 31–45). -/
structure Challenges (F R : Type) where
  z : F
  boundary_coeffs : List F
  transition_coeffs : List F
  trace_term_coeffs : List (List F)
  gammas : List F
  zetas : List F
  iotas : List Nat
  rap_challenges : R
  leading_zeros_count : Nat

/-- `verifier.rs::step_1_replay_rounds_and_recover_challenges` (lines
58–196), with the transcript state threaded.  Note, against `prove`: the
trace OOD values are appended *before* the composition-part values (lines
113–123); one `γ` is sampled and the DEEP coefficients are its powers, the
trace-term coefficients taking the *first* powers (lines 129–147); each FRI
`ζ` is sampled *before* the corresponding layer root is appended (lines
150–163); and the nonce is appended only when `grinding_factor > 0` (lines
168–178).  `none` only when the proof has no first trace commitment. -/
def step_1_replay_rounds_and_recover_challenges {R σ : Type}
    (G : GrindingParams) (T : StarkTranscript F σ) (air : Air F R σ)
    (proof : StarkProof F) (domain : Domain F) (s : σ) :
    Option (Challenges F R × σ) :=
  match proof.lde_trace_merkle_roots.head? with
  | none => none
  | some root0 =>
    let s1 := T.append_bytes s [root0]
    let rap := air.build_rap_challenges s1
    let s2 := match proof.lde_trace_merkle_roots.get? 1 with
      | some root1 => T.append_bytes rap.2 [root1]
      | none => rap.2
    let bs := T.sample_field_element s2
    let beta := bs.1
    let num_boundary_constraints := (air.boundary_constraints rap.1).length
    let num_transition_constraints := air.context.num_transition_constraints
    let coefficients := (List.range
      (num_boundary_constraints + num_transition_constraints)).map (fun i => beta ^ i)
    let transition_coeffs := coefficients.take num_transition_constraints
    let boundary_coeffs := coefficients.drop num_transition_constraints
    let s3 := T.append_bytes bs.2 [proof.composition_poly_root]
    let zz := T.sample_z_ood s3 domain.lde_roots_of_unity_coset
      domain.trace_roots_of_unity
    let z := zz.1
    -- <<<< Receive values: tⱼ(zgᵏ), column-major
    let s4 := (List.range proof.trace_ood_frame_evaluations.num_columns).foldl
      (fun st i => (List.range proof.trace_ood_frame_evaluations.num_rows).foldl
        (fun st2 j => T.append_field_element st2
          ((proof.trace_ood_frame_evaluations.get_row j).getD i 0)) st) zz.2
    -- <<<< Receive values: Hᵢ(z^N)
    let s5 := proof.composition_poly_parts_ood_evaluation.foldl
      (fun st e => T.append_field_element st e) s4
    let n_terms_composition_poly := proof.composition_poly_parts_ood_evaluation.length
    let n_terms_trace :=
      air.context.transition_offsets.length * air.context.trace_columns
    let gs := T.sample_field_element s5
    let gamma := gs.1
    -- powers 1, γ, γ², …
    let deep_composition_coefficients :=
      (List.range (n_terms_composition_poly + n_terms_trace)).map (fun i => gamma ^ i)
    let trace_term_coeffs :=
      ((deep_composition_coefficients.take n_terms_trace).toChunks
        air.context.transition_offsets.length)
    let gammas := deep_composition_coefficients.drop n_terms_trace
    -- FRI: ζ before root, one extra ζ at the end
    let zs := proof.fri_layers_merkle_roots.foldl
      (fun (acc : List F × σ) root =>
        let es := T.sample_field_element acc.2
        (acc.1 ++ [es.1], T.append_bytes es.2 [root])) ([], gs.2)
    let zlast := T.sample_field_element zs.2
    let zetas := zs.1 ++ [zlast.1]
    let s6 := T.append_field_element zlast.2 proof.fri_last_value
    let security_bits := air.context.proof_options.grinding_factor
    let gr : Nat × σ :=
      if 0 < security_bits then
        let transcript_challenge := T.state s6
        let nonce := proof.nonce
        (hash_transcript_with_int_and_get_leading_zeros G transcript_challenge nonce,
         T.append_bytes s6 [nonce])
      else (0, s6)
    let number_of_queries := air.options.fri_number_of_queries
    let is_ := sample_query_indexes T number_of_queries
      domain.lde_roots_of_unity_coset.length gr.2
    some ({ z := z
            boundary_coeffs := boundary_coeffs
            transition_coeffs := transition_coeffs
            trace_term_coeffs := trace_term_coeffs
            gammas := gammas
            zetas := zetas
            iotas := is_.1
            rap_challenges := rap.1
            leading_zeros_count := gr.1 }, is_.2)

/-- `verifier.rs::step_2_verify_claimed_composition_polynomial` (lines
198–289).  `none` models the panics: the per-constraint boundary read
`trace_ood_frame_evaluations.get_row(0)[col]` (line 222, a panic whenever
the frame lacks a full first row or the constraint column is out of range),
a zero in the batch inversion, the `(z^N - 1).inv().unwrap()`, the
`.last().expect` on the trace roots and the `.max().expect` on the
exemption list. -/
def step_2_verify_claimed_composition_polynomial {R σ : Type} (air : Air F R σ)
    (proof : StarkProof F) (domain : Domain F) (challenges : Challenges F R) :
    Option Bool :=
  let boundary_constraints := air.boundary_constraints challenges.rap_challenges
  let trace_length := air.trace_length
  if boundary_constraints.any (fun bc =>
      proof.trace_ood_frame_evaluations.data.length
          < proof.trace_ood_frame_evaluations.row_width
        || proof.trace_ood_frame_evaluations.row_width ≤ bc.col) then none
  else
  let nums_dens := boundary_constraints.map (fun bc =>
    let point := domain.trace_primitive_root ^ bc.step
    let trace_evaluation := (proof.trace_ood_frame_evaluations.get_row 0).getD bc.col 0
    (trace_evaluation - bc.value, challenges.z - point))
  if (nums_dens.map (fun p => p.2)).any (fun d => d == 0) then none
  else
    let boundary_quotient_ood_evaluation :=
      ((nums_dens.map (fun p => p.1)).zip
        ((nums_dens.map (fun p => p.2)).map (fun d => d⁻¹))).zip
        challenges.boundary_coeffs |>.foldl
        (fun acc (q : (F × F) × F) => acc + q.1.1 * q.1.2 * q.2) 0
    let transition_ood_frame_evaluations :=
      air.compute_transition proof.trace_ood_frame_evaluations challenges.rap_challenges
    if (challenges.z ^ trace_length - 1) == 0 then none
    else
      let denominator := (challenges.z ^ trace_length - 1)⁻¹
      match domain.trace_roots_of_unity.getLast? with
      | none => none
      | some last_root =>
        match Air.transition_exemptions_verifier air last_root with
        | none => none
        | some exemption_polys =>
          let exemption := exemption_polys.map (fun poly => poly_eval poly challenges.z)
          let transition_c_i_evaluations_sum :=
            (((transition_ood_frame_evaluations.zip air.context.transition_degrees).zip
              air.context.transition_exemptions).zip challenges.transition_coeffs).foldl
              (fun acc (q : ((F × Nat) × Nat) × F) =>
                let except_val := match q.1.2 with
                  | 0 => 1
                  | e + 1 => exemption.getD e 1
                acc + denominator * q.1.1.1 * q.2 * except_val) 0
          let composition_poly_ood_evaluation :=
            boundary_quotient_ood_evaluation + transition_c_i_evaluations_sum
          let composition_poly_claimed_ood_evaluation :=
            proof.composition_poly_parts_ood_evaluation.reverse.foldl
              (fun acc coeff => acc * challenges.z + coeff) 0
          some (composition_poly_claimed_ood_evaluation == composition_poly_ood_evaluation)

/-- `verifier.rs::verify_fri_layer_openings` (lines 490–513). -/
def verify_fri_layer_openings (MB : MerkleBackend F Nat) (merkle_root : Nat)
    (auth_path auth_path_sym : MerkleProof Nat) (evaluation evaluation_sym : F)
    (domain_length iota : Nat) : Bool :=
  let index := iota % domain_length
  let index_sym := (iota + domain_length / 2) % domain_length
  let eval_sym_ok := proof_verify MB merkle_root index_sym evaluation_sym auth_path_sym
  let eval_ok := proof_verify MB merkle_root index evaluation auth_path
  eval_ok && eval_sym_ok

/-- `verifier.rs::verify_query_and_sym_openings` (lines 515–598): fold `v`
through the layers, checking the openings of each layer (the path of the
running `v` at `ι % len` and of the symmetric evaluation at the shifted
index), and on the last layer compare with `fri_last_value`. -/
def verify_query_and_sym_openings {R : Type} (MB : MerkleBackend F Nat)
    (proof : StarkProof F) (challenges : Challenges F R) (iota : Nat)
    (fri_decommitment : FriDecommitment F) (domain : Domain F)
    (evaluation_point_inverse : F)
    (deep_composition_evaluation deep_composition_evaluation_sym : F) : Bool :=
  let fri_layers_merkle_roots := proof.fri_layers_merkle_roots
  let evaluation_point_vec := (List.range fri_layers_merkle_roots.length).map
    (fun k => (evaluation_point_inverse ^ 2) ^ 2 ^ k)
  let pi0 := deep_composition_evaluation
  let pi0_sym := deep_composition_evaluation_sym
  let v0 := (pi0 + pi0_sym) + challenges.zetas.getD 0 0 * (pi0 - pi0_sym) *
    evaluation_point_inverse
  let zipped := (((((List.range fri_layers_merkle_roots.length).zip
    fri_layers_merkle_roots).zip fri_decommitment.layers_auth_paths).zip
    fri_decommitment.layers_evaluations).zip
    fri_decommitment.layers_auth_paths_sym).zip
    fri_decommitment.layers_evaluations_sym |>.zip evaluation_point_vec
  let out := zipped.foldl
    (fun (acc : F × Bool) q =>
      let k := q.1.1.1.1.1.1
      let merkle_root := q.1.1.1.1.1.2
      let auth_path := q.1.1.1.1.2
      let _evaluation := q.1.1.1.2
      let auth_path_sym := q.1.1.2
      let evaluation_sym := q.1.2
      let evaluation_point_inv := q.2
      let v := acc.1
      let result := acc.2
      let domain_length := 2 ^ (domain.lde_root_order - (k + 1))
      let openings_ok := verify_fri_layer_openings MB merkle_root auth_path
        auth_path_sym v evaluation_sym domain_length iota
      let beta := challenges.zetas.getD (k + 1) 0
      let v2 := (v + evaluation_sym) + beta * (v - evaluation_sym) * evaluation_point_inv
      if k < fri_decommitment.layers_evaluations.length - 1 then
        (v2, result && openings_ok)
      else
        (v2, result && (v2 == proof.fri_last_value) && openings_ok))
    (v0, true)
  out.2

/-- `verifier.rs::reconstruct_deep_composition_poly_evaluation` (lines
638–678). -/
def reconstruct_deep_composition_poly_evaluation {R : Type}
    (proof : StarkProof F) (evaluation_point primitive_root : F)
    (challenges : Challenges F R) (lde_trace_evaluations : List F)
    (lde_composition_poly_parts_evaluation : List F) : Option F :=
  let num_rows := proof.trace_ood_frame_evaluations.num_rows
  let denoms_trace := (List.range num_rows).map
    (fun row_idx => evaluation_point - challenges.z * primitive_root ^ row_idx)
  if denoms_trace.any (fun d => d == 0) then none
  else
    let denoms_inv := denoms_trace.map (fun d => d⁻¹)
    let trace_term := ((List.range proof.trace_ood_frame_evaluations.num_columns).zip
      challenges.trace_term_coeffs).foldl
      (fun trace_terms (qc : Nat × List F) =>
        let col_idx := qc.1
        let trace_i := ((List.range num_rows).zip qc.2).foldl
          (fun trace_t (qr : Nat × F) =>
            let row_idx := qr.1
            let poly_evaluation :=
              (lde_trace_evaluations.getD col_idx 0 -
                (proof.trace_ood_frame_evaluations.get_row row_idx).getD col_idx 0) *
              denoms_inv.getD row_idx 0
            trace_t + poly_evaluation * qr.2) 0
        trace_terms + trace_i) 0
    let number_of_parts := lde_composition_poly_parts_evaluation.length
    let z_pow := challenges.z ^ number_of_parts
    if (evaluation_point - z_pow) == 0 then none
    else
      let denom_composition := (evaluation_point - z_pow)⁻¹
      let h_terms := ((List.range lde_composition_poly_parts_evaluation.length).map
        (fun j => (lde_composition_poly_parts_evaluation.getD j 0 -
          proof.composition_poly_parts_ood_evaluation.getD j 0) *
          challenges.gammas.getD j 0)).foldl (fun a b => a + b) 0
      some (trace_term + h_terms * denom_composition)

/-- `verifier.rs::reconstruct_deep_composition_poly_evaluations_for_all_queries`
(lines 600–635): indexes `proof.deep_poly_openings[i]` and
`proof.deep_poly_openings_sym[i]` for every query — `none` when either is
missing. -/
def reconstruct_deep_composition_poly_evaluations_for_all_queries {R σ : Type}
    (P : FFTParams F) (air : Air F R σ) (challenges : Challenges F R)
    (domain : Domain F) (proof : StarkProof F) : Option (List F × List F) :=
  let primitive_root := P.primitive_root domain.root_order
  let rec_one := fun (iota : Nat) (openings : List (DeepPolynomialOpenings F))
      (i : Nat) (point : F) =>
    match openings.get? i with
    | none => none
    | some op => reconstruct_deep_composition_poly_evaluation proof point
        primitive_root challenges op.lde_trace_evaluations
        op.lde_composition_poly_parts_evaluation
  match (List.range challenges.iotas.length).mapM (fun i =>
      rec_one (challenges.iotas.getD i 0) proof.deep_poly_openings i
        (domain.lde_roots_of_unity_coset.getD (challenges.iotas.getD i 0) 0)) with
  | none => none
  | some deep_poly_evaluations =>
    match (List.range challenges.iotas.length).mapM (fun i =>
        let iota := challenges.iotas.getD i 0
        let domain_size := domain.lde_roots_of_unity_coset.length
        rec_one iota proof.deep_poly_openings_sym i
          (domain.lde_roots_of_unity_coset.getD
            ((iota + domain_size / 2) % domain_size) 0)) with
    | none => none
    | some deep_poly_evaluations_sym =>
      some (deep_poly_evaluations, deep_poly_evaluations_sym)

/-- `verifier.rs::step_3_verify_fri` (lines 291–333). -/
def step_3_verify_fri {R σ : Type} (P : FFTParams F) (MB : MerkleBackend F Nat)
    (air : Air F R σ) (proof : StarkProof F) (domain : Domain F)
    (challenges : Challenges F R) : Option Bool :=
  match reconstruct_deep_composition_poly_evaluations_for_all_queries P air
      challenges domain proof with
  | none => none
  | some (deep_poly_evaluations, deep_poly_evaluations_sym) =>
    let evaluation_points := challenges.iotas.map
      (fun iota => domain.lde_roots_of_unity_coset.getD iota 0)
    if evaluation_points.any (fun d => d == 0) then none
    else
      let evaluation_point_inverse := evaluation_points.map (fun d => d⁻¹)
      some (((List.range challenges.iotas.length).zip
        ((proof.query_list.zip challenges.iotas).zip evaluation_point_inverse)).foldl
        (fun result (q : Nat × (FriDecommitment F × Nat) × F) =>
          result && verify_query_and_sym_openings MB proof challenges q.2.1.2 q.2.1.1
            domain q.2.2 (deep_poly_evaluations.getD q.1 0)
            (deep_poly_evaluations_sym.getD q.1 0)) true)

/-- `verifier.rs::verify_opening` (lines 405–416). -/
def verify_opening (BB : MerkleBackend (List F) Nat) (proof : MerkleProof Nat)
    (root : Nat) (index : Nat) (value : List F) : Bool :=
  proof_verify BB root index value proof

/-- `verifier.rs::verify_trace_openings` (lines 357–403). -/
def verify_trace_openings (BB : MerkleBackend (List F) Nat) (domain : Domain F)
    (num_main_columns : Nat) (proof : StarkProof F)
    (deep_poly_opening deep_poly_opening_sym : DeepPolynomialOpenings F)
    (iota : Nat) : Bool :=
  let lde_trace_evaluations :=
    [deep_poly_opening.lde_trace_evaluations.take num_main_columns,
     deep_poly_opening.lde_trace_evaluations.drop num_main_columns]
  let index := iota
  let openings_are_valid := ((proof.lde_trace_merkle_roots.zip
    deep_poly_opening.lde_trace_merkle_proofs).zip lde_trace_evaluations).foldl
    (fun acc (q : (Nat × MerkleProof Nat) × List F) =>
      acc && verify_opening BB q.1.2 q.1.1 index q.2) true
  let lde_trace_evaluations_sym :=
    [deep_poly_opening_sym.lde_trace_evaluations.take num_main_columns,
     deep_poly_opening_sym.lde_trace_evaluations.drop num_main_columns]
  let index_sym := (iota + domain.lde_roots_of_unity_coset.length / 2) %
    domain.lde_roots_of_unity_coset.length
  let openings_sym_are_valid := ((proof.lde_trace_merkle_roots.zip
    deep_poly_opening_sym.lde_trace_merkle_proofs).zip lde_trace_evaluations_sym).foldl
    (fun acc (q : (Nat × MerkleProof Nat) × List F) =>
      acc && verify_opening BB q.1.2 q.1.1 index_sym q.2) true
  openings_are_valid && openings_sym_are_valid

/-- `verifier.rs::verify_composition_poly_opening` (lines 418–446). -/
def verify_composition_poly_opening (BB : MerkleBackend (List F) Nat)
    (domain : Domain F)
    (deep_poly_opening deep_poly_opening_sym : DeepPolynomialOpenings F)
    (composition_poly_merkle_root : Nat) (iota : Nat) : Bool :=
  let ok := proof_verify BB composition_poly_merkle_root iota
    deep_poly_opening.lde_composition_poly_parts_evaluation
    deep_poly_opening.lde_composition_poly_proof
  let ok_sym := proof_verify BB composition_poly_merkle_root
    (iota + domain.lde_roots_of_unity_coset.length / 2)
    deep_poly_opening_sym.lde_composition_poly_parts_evaluation
    deep_poly_opening_sym.lde_composition_poly_proof
  ok && ok_sym

/-- `verifier.rs::step_4_verify_trace_and_composition_openings` (lines
448–488): a fold over `iotas.zip(openings).zip(openings_sym)` (which is
empty, hence vacuously true, when `deep_poly_openings_sym` is empty). -/
def step_4_verify_trace_and_composition_openings {R σ : Type}
    (BB : MerkleBackend (List F) Nat) (air : Air F R σ) (proof : StarkProof F)
    (domain : Domain F) (challenges : Challenges F R) : Bool :=
  ((challenges.iotas.zip proof.deep_poly_openings).zip
    proof.deep_poly_openings_sym).foldl
    (fun result (q : (Nat × DeepPolynomialOpenings F) × DeepPolynomialOpenings F) =>
      let iota_n := q.1.1
      let deep_poly_opening := q.1.2
      let deep_poly_openings_sym := q.2
      let r1 := result && verify_composition_poly_opening BB domain deep_poly_opening
        deep_poly_openings_sym proof.composition_poly_root iota_n
      let num_main_columns :=
        air.context.trace_columns - air.number_auxiliary_rap_columns
      r1 && verify_trace_openings BB domain num_main_columns proof
        deep_poly_opening deep_poly_openings_sym iota_n) true

/-- `verifier.rs::verify` (lines 680–782): the two early boolean rejections
(query count, grinding), then steps 2–4 each short-circuiting to `false`.
`none` models a panic inside a step. -/
def verify {R σ : Type} (P : FFTParams F) (BB : MerkleBackend (List F) Nat)
    (MB : MerkleBackend F Nat) (G : GrindingParams) (T : StarkTranscript F σ)
    (mkAir : Nat → ProofOptions → Air F R σ) (proof : StarkProof F)
    (proof_options : ProofOptions) (s : σ) : Option Bool :=
  if proof.query_list.length < proof_options.fri_number_of_queries then some false
  else
    let air := mkAir proof.trace_length proof_options
    let domain := Domain.new P air.trace_length air.context.proof_options
    match step_1_replay_rounds_and_recover_challenges G T air proof domain s with
    | none => none
    | some (challenges, _s1) =>
      let grinding_factor := air.context.proof_options.grinding_factor
      if challenges.leading_zeros_count < grinding_factor then some false
      else
        match step_2_verify_claimed_composition_polynomial air proof domain challenges with
        | none => none
        | some false => some false
        | some true =>
          match step_3_verify_fri P MB air proof domain challenges with
          | none => none
          | some false => some false
          | some true =>
            if step_4_verify_trace_and_composition_openings BB air proof domain
                challenges then
              some true
            else some false

/-! ## §8 The simple Fibonacci AIR (`examples/simple_fibonacci.rs`) and a
concrete instantiation over `ZMod 97` (which has 16-th roots of unity; `8`
has order 16, `64 = 8²` order 8, and the coset offset `3` is outside the
16-th roots).  The external hash and transcript collaborators are toy
deterministic functions — completeness and transcript-replay claims depend
only on both sides using the same ones. -/

/-- `simple_fibonacci.rs::FibonacciAIR` as an `Air` record: one column,
transition `a2 - a1 - a0` over offsets `[0,1,2]` with exemption count 2,
boundary `trace[0][0] = a0`, `trace[1][0] = a1`.  (`transition_degrees` is
read by the verifier but absent from the example's `AirContext` literal; the
one constraint is linear, so it is modelled as `[1]`.) -/
def fibonacci_air {σ : Type} (a0 a1 : F) (trace_length : Nat)
    (proof_options : ProofOptions) : Air F Unit σ :=
  { context :=
      { proof_options := proof_options
        trace_columns := 1
        transition_exemptions := [2]
        transition_offsets := [0, 1, 2]
        transition_degrees := [1]
        num_transition_constraints := 1 }
    trace_length := trace_length
    build_auxiliary_trace := fun _ _ => ⟨[]⟩
    build_rap_challenges := fun s => ((), s)
    number_auxiliary_rap_columns := 0
    compute_transition := fun frame _ =>
      let first_step := frame.get_row 0
      let second_step := frame.get_row 1
      let third_step := frame.get_row 2
      [third_step.getD 0 0 - second_step.getD 0 0 - first_step.getD 0 0]
    boundary_constraints := fun _ =>
      [BoundaryConstraint.new_simple_main 0 a0,
       BoundaryConstraint.new_simple_main 1 a1] }

def fib_rec_tail (prev2 prev1 : F) : Nat → List F
  | 0 => []
  | n + 1 =>
    let nxt := prev1 + prev2
    nxt :: fib_rec_tail prev1 nxt n

/-- `simple_fibonacci.rs::fibonacci_trace`: the two seeds, then sums (the
source always emits the two seeds, whatever `trace_length`). -/
def fibonacci_trace (a0 a1 : F) (trace_length : Nat) : TraceTable F :=
  ⟨[a0 :: a1 :: fib_rec_tail a0 a1 (trace_length - 2)]⟩

instance : Fact (Nat.Prime 97) := ⟨by norm_num⟩

/-- The concrete field of the end-to-end runs: `ZMod 97` with the inverse
realized as `x^95` (Fermat), so that every field operation reduces inside
the Lean kernel. -/
def F97 := ZMod 97

instance : CommRing F97 := inferInstanceAs (CommRing (ZMod 97))

instance : DecidableEq F97 := inferInstanceAs (DecidableEq (ZMod 97))

instance : Field F97 :=
  { inferInstanceAs (CommRing F97) with
    inv := fun x => x ^ 95
    nnqsmul := _
    qsmul := _
    exists_pair_ne := ⟨(0 : ZMod 97), 1, by decide⟩
    mul_inv_cancel := by
      intro a ha
      have h : (a : ZMod 97) ^ 96 = 1 := by
        have := ZMod.pow_card_sub_one_eq_one (p := 97) (a := a) ha
        simpa using this
      show a * a ^ 95 = 1
      calc a * a ^ 95 = a ^ 96 := by ring
      _ = 1 := h
    inv_zero := by decide }

/-- The canonical representative, for hashing and serialization. -/
def F97.natval (x : F97) : Nat := ZMod.val (show ZMod 97 from x)

/-- Roots of unity of `F97`: `primitive_root k = 28^(2^(5-k))` has exact
order `2^k` for `k ≤ 5` (`28` has order 32 and `28² = 8`). -/
def fftP97 : FFTParams F97 :=
  ⟨fun k => if k ≤ 5 then (28 : F97) ^ (2 ^ (5 - k)) else 1⟩

def nat_hash_step (acc x : Nat) : Nat := (acc * 131 + x + 7) % 1000003

def nat_hash_list (l : List Nat) : Nat := l.foldl nat_hash_step 17

/-- Toy FRI-layer Merkle backend over `F97`. -/
def merkleB97 : MerkleBackend F97 Nat :=
  ⟨fun x => (x.natval + 1) % 1000003, fun a b => nat_hash_step (nat_hash_step 3 a) b⟩

/-- Toy batched (row) Merkle backend over `F97`. -/
def batchB97 : MerkleBackend (List F97) Nat :=
  ⟨fun row => nat_hash_list (row.map (fun x => x.natval)),
   fun a b => nat_hash_step (nat_hash_step 5 a) b⟩

/-- Toy grinding collaborator: every nonce hash has 64 leading zeros, so the
nonce search finds 0 immediately and any `grinding_factor ≤ 64` passes. -/
def grindingG97 : GrindingParams := ⟨fun _ _ => 64, 16⟩

/-- The deterministic sample function of the toy transcript: hash of the
encoded op history, reduced into the field. -/
def t97_sample (s : List Nat) : Nat := nat_hash_list s % 97

def sample_z_ood_loop : Nat → List Nat → List F97 → List F97 →
    F97 × List Nat
  | 0, s, _, _ => ((t97_sample s : Nat), s ++ [3])
  | fuel + 1, s, lde, trace =>
    let z : F97 := (t97_sample s : Nat)
    let s1 := s ++ [3]
    if lde.contains z || trace.contains z then sample_z_ood_loop fuel s1 lde trace
    else (z, s1)

/-- The toy transcript: the state is the encoded history of operations
(each append and sample extends it), samples are a deterministic hash of the
state, and `sample_z_ood` is the spec's rejection-resampling loop.  Because
the state is the op history, equality of final states is exactly equality of
the op sequences with their argument values. -/
def transcript97 : StarkTranscript F97 (List Nat) :=
  { append_bytes := fun s b => s ++ [1] ++ b
    append_field_element := fun s e => s ++ [2, e.natval]
    sample_field_element := fun s => (((t97_sample s : Nat) : F97), s ++ [3])
    sample_u64 := fun s bound => (nat_hash_list s % bound, s ++ [4])
    state := fun s => s
    sample_z_ood := fun s lde trace => sample_z_ood_loop 200 s lde trace }

def fibOptions : ProofOptions :=
  { blowup_factor := 2, fri_number_of_queries := 1, coset_offset := 3,
    grinding_factor := 1 }

def mkFibAir : Nat → ProofOptions → Air F97 Unit (List Nat) :=
  fun trace_length opts => fibonacci_air 1 1 trace_length opts

def fibTrace8 : TraceTable F97 := fibonacci_trace 1 1 8

/-- The concrete prover run on the Fibonacci instance. -/
def proveFib : Option (StarkProof F97 × List Nat) :=
  prove fftP97 batchB97 merkleB97 grindingG97 transcript97 mkFibAir fibTrace8
    fibOptions []

/-- The concrete verifier run on the honestly produced proof. -/
def verifyFib : Option Bool :=
  proveFib.bind (fun pr =>
    verify fftP97 batchB97 merkleB97 grindingG97 transcript97 mkFibAir pr.1
      fibOptions [])


/-- `Fintype` on the concrete field, so that the witnesses can decide
quantifications over it. -/
instance : Fintype F97 := inferInstanceAs (Fintype (ZMod 97))

/-- An (invalid) all-empty proof object: the `getD` default for projections
out of `proveFib`, and the short-query-list input of the C8 witness. -/
def emptyProof97 : StarkProof F97 :=
  { lde_trace_merkle_roots := []
    trace_ood_frame_evaluations := ⟨[], 0⟩
    composition_poly_root := 0
    composition_poly_parts_ood_evaluation := []
    fri_layers_merkle_roots := []
    fri_last_value := 0
    query_list := []
    deep_poly_openings := []
    deep_poly_openings_sym := []
    nonce := 0
    trace_length := 8 }

/-- The honest Fibonacci proof object. -/
def fibProof : StarkProof F97 := (proveFib.getD (emptyProof97, [])).1

/-- The prover's final transcript state on the Fibonacci run.  Under
`transcript97` the state is the encoded op history, so this is the sequence
of transcript operations `prove` performed, with their argument values. -/
def proveFibTranscript : Option (List Nat) := proveFib.map (fun pr => pr.2)

def fibDomain : Domain F97 := Domain.new fftP97 8 fibOptions

/-- The verifier step-1 replay on the honest Fibonacci proof (exactly the
air/domain `verify` would build for it): recovered challenges and final
transcript state. -/
def step1Fib : Option (Challenges F97 Unit × List Nat) :=
  step_1_replay_rounds_and_recover_challenges grindingG97 transcript97
    (mkFibAir fibProof.trace_length fibOptions) fibProof
    (Domain.new fftP97 (mkFibAir fibProof.trace_length fibOptions).trace_length
      (mkFibAir fibProof.trace_length fibOptions).context.proof_options) []

/-- The op sequence the verifier's step 1 performs on the honest proof. -/
def step1FibTranscript : Option (List Nat) := step1Fib.map (fun cs => cs.2)

/-- The challenges step 1 recovers on the honest Fibonacci proof. -/
def fibChallenges : Challenges F97 Unit :=
  (step1Fib.map (fun cs => cs.1)).getD ⟨0, [], [], [], [], [], [], (), 0⟩

/-- A grinding collaborator whose hash never has leading zeros, so any
positive grinding factor rejects. -/
def zeroGrindG97 : GrindingParams := ⟨fun _ _ => 0, 16⟩

/-- **C1** (code_bug): the spec demands that the verifier's step 1 perform
the prover's transcript operations in identical order with identical
arguments.  On the honest Fibonacci-8 run both sides complete, yet the op
logs (the `transcript97` states, which record every append and sample with
its arguments) differ: the prover appends the round-3 H-part evaluations
before the trace evaluations, samples an independent coefficient per DEEP
term, samples each FRI root before its ζ (L zetas) and appends the nonce
unconditionally, while step 1 appends trace before H parts, derives the DEEP
coefficients as powers of a single γ, samples ζ before each root (L+1
zetas) and appends the nonce only when grinding is enabled. -/
theorem claim_C1_transcript_replay_diverges :
    proveFibTranscript.isSome = true ∧ step1FibTranscript.isSome = true ∧
      proveFibTranscript ≠ step1FibTranscript := by decide

/-- **C2** (code_bug): end-to-end completeness fails on the spec\'s own
example.  The honest Fibonacci-8 proof is produced, but `verify` on it
returns `none` — the model of the verifier\'s panic: step 3 indexes
`proof.deep_poly_openings_sym`, which `prove` never populates — rather than
the claimed `true`. -/
theorem claim_C2_end_to_end_completeness_fails :
    proveFib.isSome = true ∧ verifyFib = none := by decide

/-- **C8**: `verify` returns `some false` — a boolean, with no later step
run and no panic — whenever the proof carries fewer query decommitments
than `fri_number_of_queries`, and whenever the leading-zeros count
recovered by step 1 is strictly below the configured grinding factor. -/
theorem claim_C8_verify_early_false {R σ : Type} (P : FFTParams F)
    (BB : MerkleBackend (List F) Nat) (MB : MerkleBackend F Nat)
    (G : GrindingParams) (T : StarkTranscript F σ)
    (mkAir : Nat → ProofOptions → Air F R σ) (proof : StarkProof F)
    (proof_options : ProofOptions) (s : σ) :
    (proof.query_list.length < proof_options.fri_number_of_queries →
      verify P BB MB G T mkAir proof proof_options s = some false) ∧
    (¬ proof.query_list.length < proof_options.fri_number_of_queries →
      (step_1_replay_rounds_and_recover_challenges G T
          (mkAir proof.trace_length proof_options) proof
          (Domain.new P (mkAir proof.trace_length proof_options).trace_length
            (mkAir proof.trace_length proof_options).context.proof_options)
          s).map
        (fun cs => decide (cs.1.leading_zeros_count <
          (mkAir proof.trace_length proof_options).context.proof_options.grinding_factor))
        = some true →
      verify P BB MB G T mkAir proof proof_options s = some false) := by
  constructor
  · intro h
    rw [verify, if_pos h]
  · intro hq h1
    rw [verify, if_neg hq]
    cases hs : step_1_replay_rounds_and_recover_challenges G T
        (mkAir proof.trace_length proof_options) proof
        (Domain.new P (mkAir proof.trace_length proof_options).trace_length
          (mkAir proof.trace_length proof_options).context.proof_options) s with
    | none => rw [hs] at h1; exact Option.noConfusion h1
    | some cs =>
      rw [hs] at h1
      obtain ⟨ch, s1⟩ := cs
      simp only [Option.map_some', Option.some.injEq] at h1
      simp only [hs]
      rw [if_pos (of_decide_eq_true h1)]

/-- Witness for C8: the empty proof is rejected on the query count, and the
honest proof is rejected under a grinding collaborator whose leading-zeros
count (0) is below the configured factor (1). -/
theorem claim_C8_verify_early_false_witness :
    verify fftP97 batchB97 merkleB97 grindingG97 transcript97 mkFibAir
        emptyProof97 fibOptions [] = some false ∧
    verify fftP97 batchB97 merkleB97 zeroGrindG97 transcript97 mkFibAir
        fibProof fibOptions [] = some false :=
  ⟨(claim_C8_verify_early_false fftP97 batchB97 merkleB97 grindingG97 transcript97
      mkFibAir emptyProof97 fibOptions []).1 (by decide),
   (claim_C8_verify_early_false fftP97 batchB97 merkleB97 zeroGrindG97 transcript97
      mkFibAir fibProof fibOptions []).2 (by decide) (by decide)⟩


/-- `round_2` always splits `H` with `number_of_parts = 1` (fixed in the
source), so the parts list is a singleton. -/
theorem round_2_composition_poly_parts_length {R σ : Type} (P : FFTParams F)
    (BB : MerkleBackend (List F) Nat) (air : Air F R σ) (domain : Domain F)
    (r1 : Round1 F R) (tc bc : List F) (r2 : Round2 F)
    (h : round_2_compute_composition_polynomial P BB air domain r1 tc bc
      = some r2) :
    r2.composition_poly_parts.length = 1 := by
  simp only [round_2_compute_composition_polynomial] at h
  split at h
  · exact Option.noConfusion h
  · simp only [Option.some.injEq] at h
    subst h
    simp [break_in_parts]

/-- **C10**: every successful `prove` run splits the composition polynomial
into exactly one part — `composition_poly_parts_ood_evaluation` is a
singleton — and consequently the out-of-domain point `z^N` used in round 3
(`N` the number of parts recorded in the proof) is `z` itself. -/
theorem claim_C10_single_composition_part {R σ : Type} (P : FFTParams F)
    (BB : MerkleBackend (List F) Nat) (MB : MerkleBackend F Nat)
    (G : GrindingParams) (T : StarkTranscript F σ)
    (mkAir : Nat → ProofOptions → Air F R σ) (main_trace : TraceTable F)
    (proof_options : ProofOptions) (s : σ) (pr : StarkProof F) (s2 : σ)
    (h : prove P BB MB G T mkAir main_trace proof_options s = some (pr, s2)) :
    pr.composition_poly_parts_ood_evaluation.length = 1 ∧
      ∀ z : F, z ^ pr.composition_poly_parts_ood_evaluation.length = z := by
  simp only [prove] at h
  split at h
  · exact Option.noConfusion h
  · split at h
    · exact Option.noConfusion h
    · split at h
      · exact Option.noConfusion h
      · rename_i x1 r1 s1 heq1 x2 r2 heq2 x3 r4 s5 heq3
        simp only [Option.some.injEq, Prod.mk.injEq] at h
        obtain ⟨hpr, _⟩ := h
        subst hpr
        have hlen : r2.composition_poly_parts.length = 1 :=
          round_2_composition_poly_parts_length _ _ _ _ _ _ _ _ heq2
        constructor
        · simp only [round_3_evaluate_polynomials_in_out_of_domain_element,
            List.length_map, hlen]
        · intro z
          simp only [round_3_evaluate_polynomials_in_out_of_domain_element,
            List.length_map, hlen, pow_one]


/-- The prover\'s final transcript state on the Fibonacci run, as a plain
value. -/
def fibLog : List Nat := (proveFib.getD (emptyProof97, [])).2

/-- Witness for C10 at the honest Fibonacci run. -/
theorem claim_C10_single_composition_part_witness :
    prove fftP97 batchB97 merkleB97 grindingG97 transcript97 mkFibAir fibTrace8
        fibOptions [] = some (fibProof, fibLog) ∧
      fibProof.composition_poly_parts_ood_evaluation.length = 1 :=
  ⟨by decide,
   (claim_C10_single_composition_part fftP97 batchB97 merkleB97 grindingG97
      transcript97 mkFibAir fibTrace8 fibOptions [] fibProof fibLog
      (by decide)).1⟩


/-- The boundary fold of step 2 (over the zipped numerators, inverted
denominators and coefficients) is the beta-weighted boundary-quotient sum. -/
theorem boundary_quotient_foldl_eq (l : List (BoundaryConstraint F))
    (coeffs : List F) (num den : BoundaryConstraint F → F) :
    ((((l.map (fun bc => (num bc, den bc))).map (fun p => p.1)).zip
        (((l.map (fun bc => (num bc, den bc))).map (fun p => p.2)).map
          (fun d => d⁻¹))).zip coeffs).foldl
      (fun acc (q : (F × F) × F) => acc + q.1.1 * q.1.2 * q.2) 0
    = (l.zip coeffs).foldl
        (fun acc (q : BoundaryConstraint F × F) =>
          acc + q.2 * (num q.1 / den q.1)) 0 := by
  rw [List.map_map, List.map_map, List.map_map, List.zip_map',
    List.zip_map_left, List.foldl_map]
  apply List.foldl_ext
  intro a q _
  simp only [Function.comp_apply, Prod.map_fst, Prod.map_snd, id_eq]
  rw [div_eq_mul_inv]
  ring

/-- **C3**: under the hypothesis that `z` lies outside the trace roots of
unity (with the primitive root of honest order, so every inversion is
defined), that the proof\'s OOD frame has a full first row containing every
boundary-constraint column (so the per-constraint reads are in range), and
that the data the code unwraps is present (a last trace root, a non-empty
exemption list), step 2 returns `some true` exactly when the
out-of-domain value recomputed from the AIR\'s constraint definitions — the
beta-weighted boundary-quotient sum plus the beta-weighted
transition-quotient sum — equals, as field elements, the value
reconstructed from `composition_poly_parts_ood_evaluation` by Horner
evaluation at `z`. -/
theorem claim_C3_step_2_ood_field_equality {R σ : Type} (air : Air F R σ)
    (proof : StarkProof F) (domain : Domain F) (challenges : Challenges F R)
    (last_root : F) (exemption_polys : List (List F))
    (hframe : proof.trace_ood_frame_evaluations.row_width
      ≤ proof.trace_ood_frame_evaluations.data.length)
    (hcols : ∀ bc ∈ air.boundary_constraints challenges.rap_challenges,
      bc.col < proof.trace_ood_frame_evaluations.row_width)
    (hg : domain.trace_primitive_root ^ air.trace_length = 1)
    (hroots : ∀ w : F, w ^ air.trace_length = 1 →
      w ∈ domain.trace_roots_of_unity)
    (hz : challenges.z ∉ domain.trace_roots_of_unity)
    (hlast : domain.trace_roots_of_unity.getLast? = some last_root)
    (hexv : Air.transition_exemptions_verifier air last_root
      = some exemption_polys) :
    step_2_verify_claimed_composition_polynomial air proof domain challenges
        = some true ↔
      ((air.boundary_constraints challenges.rap_challenges).zip
          challenges.boundary_coeffs).foldl
          (fun acc (q : BoundaryConstraint F × F) =>
            acc + q.2 *
              (((proof.trace_ood_frame_evaluations.get_row 0).getD q.1.col 0
                  - q.1.value) /
                (challenges.z - domain.trace_primitive_root ^ q.1.step))) 0
        + ((((air.compute_transition proof.trace_ood_frame_evaluations
                challenges.rap_challenges).zip
              air.context.transition_degrees).zip
              air.context.transition_exemptions).zip
              challenges.transition_coeffs).foldl
            (fun acc (q : ((F × Nat) × Nat) × F) =>
              acc + q.2 * q.1.1.1 *
                (match q.1.2 with
                  | 0 => 1
                  | e + 1 => (exemption_polys.map
                      (fun poly => poly_eval poly challenges.z)).getD e 1) /
                (challenges.z ^ air.trace_length - 1)) 0
        = poly_eval proof.composition_poly_parts_ood_evaluation challenges.z := by
  have hzn : challenges.z ^ air.trace_length - 1 ≠ 0 := by
    intro h0
    exact hz (hroots _ (by rwa [sub_eq_zero] at h0))
  have hden : ∀ bc ∈ air.boundary_constraints challenges.rap_challenges,
      challenges.z - domain.trace_primitive_root ^ bc.step ≠ 0 := by
    intro bc _ h0
    have hmem : domain.trace_primitive_root ^ bc.step
        ∈ domain.trace_roots_of_unity := by
      apply hroots
      rw [← pow_mul, mul_comm, pow_mul, hg, one_pow]
    rw [sub_eq_zero] at h0
    exact hz (h0 ▸ hmem)
  simp only [step_2_verify_claimed_composition_polynomial]
  split
  · rename_i h0
    exfalso
    simp only [List.any_eq_true, Bool.or_eq_true, decide_eq_true_eq] at h0
    obtain ⟨bc, hbc, hbad⟩ := h0
    rcases hbad with hbad | hbad
    · omega
    · exact absurd (hcols bc hbc) (by omega)
  split
  · rename_i h1
    exfalso
    simp only [List.map_map, List.any_eq_true, List.mem_map,
      Function.comp_apply, beq_iff_eq] at h1
    obtain ⟨d, hd1, hd0⟩ := h1
    obtain ⟨bc, hbc, hfd⟩ := hd1
    exact hden bc hbc (hfd.trans hd0)
  · split
    · rename_i h2
      exfalso
      rw [beq_iff_eq] at h2
      exact hzn h2
    · split
      · rename_i h3
        rw [hlast] at h3
        exact Option.noConfusion h3
      · rename_i lr h3
        rw [hlast, Option.some.injEq] at h3
        subst h3
        split
        · rename_i h4
          rw [hexv] at h4
          exact Option.noConfusion h4
        · rename_i polys h4
          rw [hexv, Option.some.injEq] at h4
          subst h4
          rw [Option.some.injEq, beq_iff_eq]
          rw [boundary_quotient_foldl_eq]
          simp only [List.foldl_reverse, poly_eval, div_eq_mul_inv,
            mul_comm, mul_assoc, mul_left_comm]
          exact eq_comm


/-- Witness for C3 at the honest Fibonacci instance: the hypotheses hold
concretely and the recomputed out-of-domain value matches the claimed one,
so step 2 accepts. -/
theorem claim_C3_step_2_ood_field_equality_witness :
    step_2_verify_claimed_composition_polynomial (mkFibAir 8 fibOptions)
        fibProof fibDomain fibChallenges = some true :=
  (claim_C3_step_2_ood_field_equality (mkFibAir 8 fibOptions) fibProof
      fibDomain fibChallenges (fibDomain.trace_roots_of_unity.getLast?.getD 0)
      ((Air.transition_exemptions_verifier (mkFibAir 8 fibOptions)
        (fibDomain.trace_roots_of_unity.getLast?.getD 0)).getD [])
      (by decide) (by decide) (by decide) (by decide) (by decide) (by decide)
      (by decide)).mpr
    (by decide)

end LambdaVerif
